import Mathlib

/-!
# Synthizer: streaming generator, decoders, byte streams, noise generator

A shallow embedding of the parts of the synthizer sources that the checked
properties talk about, followed by the theorems.

Conventions of the embedding.

* `unsigned int` values are natural numbers below `UINT_MOD`; every
  `unsigned int` operation of the source is reduced modulo `UINT_MOD`.
* A `float *` is an offset into a memory `Nat → α`; the sample type `α` is
  abstract (only `0`, `+` and `*` are used), so no floating point rounding
  is modelled.  Positions in seconds are exact rationals.
* A C++ object with hidden state is a record of operations over a state
  type; a call takes the state and returns the new one.
* A C++ exception is a value of `Thrown`; a function that can throw returns
  `Except Thrown _` next to the state it leaves behind.
* Loops that need not terminate take a fuel argument and return `none` when
  the fuel runs out.  A failed `assert` also yields `none`.
* A `std::string` is a list of characters, a buffer of `char` a list or a
  memory of natural numbers.
-/

namespace Synthizer

/-! ## Machine arithmetic and memory -/

/-- Modulus of `unsigned int` arithmetic. -/
def UINT_MOD : Nat := 2 ^ 32

/-- The effect of `std::copy(data.begin(), data.end(), mem + cursor)`. -/
def writeAt {α : Type} (mem : Nat → α) (cursor : Nat) (data : List α) : Nat → α :=
  fun i => if i < cursor then mem i else data.getD (i - cursor) (mem i)

/-- The effect of `std::fill(mem + first, mem + last, v)`. -/
def fill {α : Type} (mem : Nat → α) (first last : Nat) (v : α) : Nat → α :=
  fun i => if first ≤ i ∧ i < last then v else mem i

/-! ## Exceptions -/

/-- What a `throw` expression throws.  `exception` is an object of a class
derived from `std::exception` thrown by value (`throw Error("...")`);
`pointer` is what `throw new Error("...")` throws, an `Error *`. -/
inductive Thrown where
  | exception (what : String)
  | pointer (what : String)
  deriving DecidableEq, Repr

/-- The handler `catch (std::exception &e)`: does it catch the thrown value? -/
def catchesStdException : Thrown → Bool
  | .exception _ => true
  | .pointer _ => false

/-! ## The decoder interface -/

/-- What one `writeSamplesInterleaved(num, samples)` call did: the frame count
it returned, the samples it stored from `samples[0]` on, and the state of the
decoder afterwards. -/
structure Written (σ α : Type) where
  got : Nat
  data : List α
  next : σ

/-- The `AudioDecoder` interface as used by the streaming generator, over a
decoder state `σ`.  A failing call leaves the decoder in the state given with
the thrown value. -/
structure AudioDecoder (σ α : Type) where
  getSr : σ → Int
  supportsSeek : σ → Bool
  writeSamplesInterleaved : σ → Nat → Except (Thrown × σ) (Written σ α)
  seekSeconds : σ → ℚ → Except (Thrown × σ) σ

/-- One call made on the decoder (kept as a trace of the run). -/
inductive DecoderCall (α : Type) where
  | write (num got : Nat) (data : List α)
  | seek (pos : ℚ)
  deriving DecidableEq

/-- Everything `fillBufferFromDecoder` changes besides its locals: the
decoder, the destination memory, and the trace of decoder calls. -/
structure Env (σ α : Type) where
  decoder : σ
  dest : Nat → α
  log : List (DecoderCall α)

/-! ## `fillBufferFromDecoder` (streaming.cpp) -/

/-- The `while (needed)` loop of `fillBufferFromDecoder`.  Returns the locals
`(needed, cursor, position_in)` at loop exit, or the thrown value. -/
def fillLoop {σ α : Type} (dec : AudioDecoder σ α) (channels : Nat) (looping : Bool) (sr : Int) :
    Nat → Nat → Bool → Nat → ℚ → Env σ α → Option (Except Thrown (Nat × Nat × ℚ) × Env σ α)
  | 0, needed, _, cursor, position_in, env =>
    if needed = 0 then some (.ok (needed, cursor, position_in), env) else none
  | fuel + 1, needed, justLooped, cursor, position_in, env =>
    if needed = 0 then some (.ok (needed, cursor, position_in), env)
    else
      match dec.writeSamplesInterleaved env.decoder needed with
      | .error (e, s) => some (.error e, { env with decoder := s })
      | .ok w =>
        let got := w.got % UINT_MOD
        let env1 : Env σ α :=
          { decoder := w.next, dest := writeAt env.dest cursor w.data,
            log := env.log ++ [DecoderCall.write needed got w.data] }
        let cursor1 := cursor + (channels * got) % UINT_MOD
        let needed1 := (needed + UINT_MOD - got) % UINT_MOD
        let position1 := position_in + (got : ℚ) / (sr : ℚ)
        let justLooped1 := justLooped && decide (got > 0)
        if needed1 > 0 ∧ justLooped1 = false ∧ looping = true ∧ dec.supportsSeek w.next = true then
          match dec.seekSeconds w.next 0 with
          | .error (e, s) => some (.error e, { env1 with decoder := s })
          | .ok s =>
            fillLoop dec channels looping sr fuel needed1 true cursor1 0
              { env1 with decoder := s, log := env1.log ++ [DecoderCall.seek 0] }
        else some (.ok (needed1, cursor1, position1), env1)

/-- The function `fillBufferFromDecoder(decoder, size, channels, dest, looping,
position_in)`: `none` when the loop has not finished within `fuel` iterations,
otherwise the returned position (or the thrown value) and the environment. -/
def fillBufferFromDecoder {σ α : Type} [Zero α] (dec : AudioDecoder σ α) (fuel : Nat) (s : σ)
    (size channels : Nat) (dest : Nat → α) (looping : Bool) (position_in : ℚ) :
    Option (Except Thrown ℚ × Env σ α) :=
  let sr := dec.getSr s
  match fillLoop dec channels looping sr fuel size false 0 position_in ⟨s, dest, []⟩ with
  | none => none
  | some (.error e, env) => some (.error e, env)
  | some (.ok (needed, cursor, position), env) =>
    some (.ok position,
      { env with dest := fill env.dest cursor (cursor + (needed * channels) % UINT_MOD) 0 })

/-- The samples stored by the reads of a trace, in call order. -/
def delivered {α : Type} : List (DecoderCall α) → List α
  | [] => []
  | .write _ _ data :: rest => data ++ delivered rest
  | .seek _ :: rest => delivered rest

/-- The frames returned by the reads of a trace, summed. -/
def framesRead {α : Type} : List (DecoderCall α) → Nat
  | [] => 0
  | .write _ got _ :: rest => got + framesRead rest
  | .seek _ :: rest => framesRead rest

/-- Does the trace contain a seek? -/
def hasSeek {α : Type} : List (DecoderCall α) → Bool
  | [] => false
  | .write _ _ _ :: rest => hasSeek rest
  | .seek _ :: _ => true

/-- The calls after the last seek of a trace (the whole trace when it has no
seek). -/
def afterLastSeek {α : Type} : List (DecoderCall α) → List (DecoderCall α)
  | [] => []
  | .write num got data :: rest =>
    if hasSeek rest then afterLastSeek rest else .write num got data :: rest
  | .seek _ :: rest => afterLastSeek rest

/-- The two `WDL_Resampler` calls made by the background thread, over a
resampler state `ρ`.  `ResamplePrepare(out_samples, nch, &inbuffer)` returns
the number of input frames wanted and the input buffer; `ResampleOut(out,
nsamples_in, nsamples_out, nch)` reads the input buffer, returns the number of
frames produced and the output memory. -/
structure Resampler (ρ α : Type) where
  ResamplePrepare : ρ → Nat → Nat → Nat × (Nat → α) × ρ
  ResampleOut : ρ → (Nat → α) → (Nat → α) → Nat → Nat → Nat → Nat × (Nat → α) × ρ

/-- The members of `StreamingGenerator` and the properties it reads.
`next_position` is the seek slot (`none`: no request); `position` with
`position_changed` is the POSITION property and its dirty flag; `ring` is the
state of `background_thread`. -/
structure StreamingGenerator (σ ρ κ : Type) where
  decoder : σ
  resampler : Option ρ
  channels : Nat
  looping : Int
  next_position : Option ℚ
  background_position : ℚ
  position : ℚ
  position_changed : Bool
  ring : κ

/-- What a call of `generateBlockInBackground` leaves behind: the thrown value
that left the function (`none` when it returned normally), the generator, the
ring slot `out`, and the trace of decoder calls. -/
structure BackgroundResult (σ ρ κ α : Type) where
  escaped : Option Thrown
  generator : StreamingGenerator σ ρ κ
  out : Nat → α
  log : List (DecoderCall α)

/-- The `try` block of `generateBlockInBackground`: the thrown value, if any,
with the state at the point of the throw.  The `int` that `ResamplePrepare`
returns and the `config::BLOCK_SIZE` constant are converted to the
`unsigned int size` of `fillBufferFromDecoder`. -/
def generateBlockInBackgroundTry {σ ρ κ α : Type} [Zero α] (dec : AudioDecoder σ α)
    (rs : Resampler ρ α) (BLOCK_SIZE fuel : Nat) (g : StreamingGenerator σ ρ κ)
    (out : Nat → α) : Option (BackgroundResult σ ρ κ α) :=
  let looping := decide (g.looping = 1)
  -- `next_position.read(&position)` empties the slot
  let g0 := { g with next_position := none }
  let seeked : Except (Thrown × σ) (ℚ × σ × List (DecoderCall α)) :=
    match g.next_position with
    | some position =>
      match dec.seekSeconds g.decoder position with
      | .error e => .error e
      | .ok s => .ok (position, s, [DecoderCall.seek position])
    | none => .ok (g.background_position, g.decoder, [])
  match seeked with
  | .error (e, s) => some ⟨some e, { g0 with decoder := s }, out, []⟩
  | .ok (position, s, log0) =>
    match g.resampler with
    | none =>
      match fillBufferFromDecoder dec fuel s (BLOCK_SIZE % UINT_MOD) g.channels out looping
          position with
      | none => none
      | some (.error e, env) =>
        some ⟨some e, { g0 with decoder := env.decoder }, env.dest, log0 ++ env.log⟩
      | some (.ok position1, env) =>
        some ⟨none, { g0 with decoder := env.decoder, background_position := position1 },
          env.dest, log0 ++ env.log⟩
    | some r =>
      let (needed, rs_buf, r1) := rs.ResamplePrepare r BLOCK_SIZE g.channels
      match fillBufferFromDecoder dec fuel s (needed % UINT_MOD) g.channels rs_buf looping
          position with
      | none => none
      | some (.error e, env) =>
        some ⟨some e, { g0 with decoder := env.decoder, resampler := some r1 }, out,
          log0 ++ env.log⟩
      | some (.ok position1, env) =>
        let (resampled, out1, r2) := rs.ResampleOut r1 env.dest out needed BLOCK_SIZE g.channels
        let resampled1 := resampled % UINT_MOD
        let out2 :=
          if resampled1 < BLOCK_SIZE then
            fill out1 ((resampled1 * g.channels) % UINT_MOD)
              ((BLOCK_SIZE * g.channels) % UINT_MOD) 0
          else out1
        let g1 : StreamingGenerator σ ρ κ :=
          { g0 with decoder := env.decoder, resampler := some r2,
                    background_position := position1 }
        some ⟨none, g1, out2, log0 ++ env.log⟩

/-- The method `StreamingGenerator::generateBlockInBackground(channels, out)`:
the `try` block under the handler `catch (std::exception &e)`, which logs and
returns.  A thrown value the handler does not catch leaves the function. -/
def generateBlockInBackground {σ ρ κ α : Type} [Zero α] (dec : AudioDecoder σ α)
    (rs : Resampler ρ α) (BLOCK_SIZE fuel : Nat) (g : StreamingGenerator σ ρ κ)
    (out : Nat → α) : Option (BackgroundResult σ ρ κ α) :=
  match generateBlockInBackgroundTry dec rs BLOCK_SIZE fuel g out with
  | none => none
  | some r =>
    match r.escaped with
    | none => some r
    | some e => if catchesStdException e then some { r with escaped := none } else some r

/-- Modelled from the spec: `FadeDriver` (fade_driver.hpp is not among the
sources).  "`drive(block_time_start, callback)` invokes `callback` with a
per-sample gain function for samples `0..BlockSize`": the driver is the gain
function it hands out at each block time. -/
structure FadeDriver (α : Type) where
  gain : Nat → Nat → α

/-- Modelled from the spec: `FadeDriver::drive`, which invokes the callback
with the gain function of the block. -/
def FadeDriver.drive {α β : Type} (driver : FadeDriver α) (block_time : Nat)
    (callback : (Nat → α) → β) : β :=
  callback (driver.gain block_time)

/-- The call `background_thread.read(count, dest)` over the ring state `κ`:
the number of frames obtained, the contents of `dest` afterwards, and the ring
afterwards. -/
structure BackgroundThread (κ α : Type) where
  read : κ → Nat → Nat × (Nat → α) × κ

/-- The inner loop `for (ch = 0; ch < channels; ch++)` of `generateBlock` for
frame `i`; the index `i * channels + ch` is an `unsigned int`. -/
def mixFrame {α : Type} [Add α] [Mul α] (channels : Nat) (g : α) (tmp_buf : Nat → α) (i : Nat)
    (output : Nat → α) : Nat → α :=
  (List.range channels).foldl
    (fun out ch =>
      let idx := (i * channels + ch) % UINT_MOD
      Function.update out idx (out idx + g * tmp_buf idx))
    output

/-- The outer loop `for (i = 0; i < got; i++)` of `generateBlock`. -/
def mixBlock {α : Type} [Add α] [Mul α] (channels got : Nat) (gain_cb : Nat → α)
    (tmp_buf : Nat → α) (output : Nat → α) : Nat → α :=
  (List.range got).foldl (fun out i => mixFrame channels (gain_cb i) tmp_buf i out) output

/-- Modelled from the spec: the accessor `acquirePosition` generated by
property_impl.hpp, which is not among the sources.  "`acquire(out) → bool`
(true if changed since last acquire, with the new value)"; acquiring clears
the dirty flag. -/
def acquirePosition {σ ρ κ : Type} (g : StreamingGenerator σ ρ κ) :
    Bool × ℚ × StreamingGenerator σ ρ κ :=
  (g.position_changed, g.position, { g with position_changed := false })

/-- Modelled from the spec: the accessor `setPosition(value, track_change)`
generated by property_impl.hpp, which is not among the sources.  With
`track_change = false` the value is set "without provoking change tracking". -/
def setPosition {σ ρ κ : Type} (g : StreamingGenerator σ ρ κ) (value : ℚ)
    (track_change : Bool) : StreamingGenerator σ ρ κ :=
  { g with position := value, position_changed := g.position_changed || track_change }

/-- The method `StreamingGenerator::generateBlock(output, gain_driver)`, run at
block time `block_time`. -/
def generateBlock {σ ρ κ α : Type} [Add α] [Mul α] (bt : BackgroundThread κ α)
    (BLOCK_SIZE : Nat) (g : StreamingGenerator σ ρ κ) (output : Nat → α)
    (gain_driver : FadeDriver α) (block_time : Nat) : StreamingGenerator σ ρ κ × (Nat → α) :=
  let (pos_changed, new_pos, g1) := acquirePosition g
  let g2 := if pos_changed then { g1 with next_position := some new_pos } else g1
  let (got, tmp_buf, ring1) := bt.read g2.ring BLOCK_SIZE
  let output1 := gain_driver.drive block_time
    (fun gain_cb => mixBlock g2.channels got gain_cb tmp_buf output)
  (setPosition { g2 with ring := ring1 } g2.background_position false, output1)

/-! ## `OggDecoder` (ogg.cpp) -/

/-- The members of `OggDecoder` over the state `V` of the `stb_vorbis` handle:
`channels` and `sample_rate` are `info.channels` and `info.sample_rate`,
`streamSupportsSeek` is `stream->supportsSeek()`. -/
structure OggDecoder (V : Type) where
  vorbis : V
  channels : Int
  sample_rate : Int
  streamSupportsSeek : Bool
  frame_count : Int

/-- The method `OggDecoder::getLength`. -/
def OggDecoder.getLength {V : Type} (d : OggDecoder V) : Int := d.frame_count

/-- The method `OggDecoder::getSr`. -/
def OggDecoder.getSr {V : Type} (d : OggDecoder V) : Int := d.sample_rate

/-- The method `OggDecoder::supportsSeek`. -/
def OggDecoder.supportsSeek {V : Type} (d : OggDecoder V) : Bool := d.streamSupportsSeek

/-- The method `OggDecoder::seekPcm(pos)`; `stb_vorbis_seek` is the library
call, returning whether it succeeded and the handle afterwards. -/
def OggDecoder.seekPcm {V : Type} (stb_vorbis_seek : V → Int → Bool × V) (d : OggDecoder V)
    (pos : Int) : Except (Thrown × OggDecoder V) (OggDecoder V) :=
  let actualPos := min d.getLength pos
  let (ok, v) := stb_vorbis_seek d.vorbis actualPos
  if !ok then .error (Thrown.pointer "Unable to seek.", { d with vorbis := v })
  else .ok { d with vorbis := v }

/-- An `OggDecoder` behind the `AudioDecoder` interface.  Reads in the file's
own channel count go straight to `stb_vorbis_get_samples_float_interleaved`,
given as `get_samples`.  `AudioDecoder::seekSeconds` is declared in
decoding.hpp, which is not among the sources: it is taken to call `seekPcm`
at the frame `floor (pos * sr)`. -/
def oggAudioDecoder {V α : Type} (stb_vorbis_seek : V → Int → Bool × V)
    (get_samples : V → Nat → Nat × List α × V) : AudioDecoder (OggDecoder V) α where
  getSr := fun d => d.getSr
  supportsSeek := fun d => d.supportsSeek
  writeSamplesInterleaved := fun d num =>
    let (got, data, v) := get_samples d.vorbis num
    .ok ⟨got, data, { d with vorbis := v }⟩
  seekSeconds := fun d pos => d.seekPcm stb_vorbis_seek ((pos.num * d.getSr) / pos.den)

/-- The constant `OggDecoder::TMP_BUF_FRAMES`; the constructor allocates
`tmp_buf` with `TMP_BUF_FRAMES * info.channels` floats. -/
def TMP_BUF_FRAMES : Nat := 1024

/-- What one `OggDecoder::writeSamplesInterleaved(num, samples, channels)` call
did: the frame count it returned, the caller's output afterwards, the decoder
afterwards, and the extent of its two writes besides the samples themselves:
`tmp_buf_stored` floats were stored from `tmp_buf[0]` on and the zero-fill
covered `zeroed` samples from `samples[0]` on (both `0` on the fast path). -/
structure OggWritten (V α : Type) where
  got : Nat
  samples : Nat → α
  decoder : OggDecoder V
  tmp_buf_stored : Nat
  zeroed : Nat

/-- The method `OggDecoder::writeSamplesInterleaved(num, samples, channels)`.
`get_samples` is the library call `stb_vorbis_get_samples_float_interleaved(
vorbis, channels, buffer, num)`, returning its result, the floats it stored
from `buffer[0]` on and the handle afterwards; `mixChannels` is the function of
channel_mixing.hpp, which is not among the sources, returning the output it
leaves. -/
def OggDecoder.writeSamplesInterleaved {V α : Type} [Zero α]
    (get_samples : V → Int → Int → Nat × List α × V)
    (mixChannels : Nat → List α → Int → (Nat → α) → Int → Nat → α)
    (d : OggDecoder V) (num : Int) (samples : Nat → α) (channels : Int) : OggWritten V α :=
  let actualChannels := if channels < 1 then d.channels else channels
  if actualChannels = d.channels then
    let (got, data, v) := get_samples d.vorbis actualChannels num
    ⟨got, writeAt samples 0 data, { d with vorbis := v }, 0, 0⟩
  else
    let (got, tmp_buf, v) := get_samples d.vorbis d.channels num
    let zeroed := ((got : Int) * d.channels).toNat
    let samples1 := fill samples 0 zeroed 0
    let samples2 := mixChannels got tmp_buf d.channels samples1 actualChannels
    ⟨got, samples2, { d with vorbis := v }, tmp_buf.length, zeroed⟩

/-! ## `MemoryLookaheadStream::read` (byte_stream.cpp) -/

/-- Modulus of `std::size_t` arithmetic. -/
def SIZE_MOD : Nat := 2 ^ 64

/-- The constant `MemoryLookaheadStream::LOOKAHEAD_BLOCK_SIZE`. -/
def LOOKAHEAD_BLOCK_SIZE : Nat := 1024

/-- The struct `LookaheadBytes`: a block of recorded bytes and how many of
them are valid. -/
structure LookaheadBytes where
  data : List Nat
  count : Nat
  deriving DecidableEq, Repr

/-- The members of `MemoryLookaheadStream`; `stream` is the state of the
wrapped stream held by `ForwardingStream`. -/
structure MemoryLookaheadStream (ς : Type) where
  stream : ς
  blocks : List LookaheadBytes
  current_block : Nat
  current_block_pos : Nat
  recording : Bool

/-- The constructor `MemoryLookaheadStream(stream)` with the member
defaults. -/
def MemoryLookaheadStream.construct {ς : Type} (stream : ς) : MemoryLookaheadStream ς :=
  { stream := stream, blocks := [], current_block := 0, current_block_pos := 0,
    recording := true }

/-- The loop `while (got < count)` of `MemoryLookaheadStream::read`, entered
with the local `got`.  One unit of fuel is used by each iteration; the nested
call `this->read(LOOKAHEAD_BLOCK_SIZE, data.data())` of the `else` branch is
the same loop started with `got = 0` on a local array.  Returns `got`, the
stream and the destination memory. -/
def MemoryLookaheadStream.readLoop {ς : Type} :
    Nat → MemoryLookaheadStream ς → Nat → Nat → Nat → (Nat → Nat) →
    Option (Nat × MemoryLookaheadStream ς × (Nat → Nat))
  | 0, st, count, got, _, mem => if got < count then none else some (got, st, mem)
  | fuel + 1, st, count, got, destination, mem =>
    if got < count then
      if h : st.blocks.length > st.current_block then
        let cur := st.blocks[st.current_block]
        let needed := min ((got + SIZE_MOD - count) % SIZE_MOD)
          ((cur.count + SIZE_MOD - st.current_block_pos) % SIZE_MOD)
        let mem1 := writeAt mem destination (cur.data.take needed)
        let pos1 := (st.current_block_pos + needed) % SIZE_MOD
        let st1 := { st with current_block_pos := pos1 }
        let st2 :=
          if pos1 = LOOKAHEAD_BLOCK_SIZE then
            { st1 with current_block := (st1.current_block + 1) % SIZE_MOD }
          else st1
        MemoryLookaheadStream.readLoop fuel st2 count got (destination + needed) mem1
      else
        match MemoryLookaheadStream.readLoop fuel st LOOKAHEAD_BLOCK_SIZE 0 0 (fun _ => 0) with
        | none => none
        | some (count1, st1, data) =>
          if count1 = 0 then some (got, st1, mem)
          else
            let block : LookaheadBytes :=
              { data := (List.range LOOKAHEAD_BLOCK_SIZE).map data, count := count1 }
            let st2 := { st1 with blocks := st1.blocks ++ [block], current_block_pos := 0 }
            MemoryLookaheadStream.readLoop fuel st2 count got destination mem
    else some (got, st, mem)

/-- The method `MemoryLookaheadStream::read(count, destination)`. -/
def MemoryLookaheadStream.read {ς : Type} (fuel : Nat) (st : MemoryLookaheadStream ς)
    (count destination : Nat) (mem : Nat → Nat) :
    Option (Nat × MemoryLookaheadStream ς × (Nat → Nat)) :=
  MemoryLookaheadStream.readLoop fuel st count 0 destination mem

/-- The method `MemoryLookaheadStream::reset`: `none` when
`assert(this->recording == false)` fails. -/
def MemoryLookaheadStream.reset {ς : Type} (st : MemoryLookaheadStream ς) :
    Option (MemoryLookaheadStream ς) :=
  if st.recording = false then
    some { st with current_block := 0, current_block_pos := 0 }
  else none

/-- The method `MemoryLookaheadStream::resetFinal`: `none` when the assertion
of `reset` fails. -/
def MemoryLookaheadStream.resetFinal {ς : Type} (st : MemoryLookaheadStream ς) :
    Option (MemoryLookaheadStream ς) :=
  match st.reset with
  | none => none
  | some st1 => some { st1 with recording := false }

/-! ## `ExposedNoiseGenerator` and `syz_createNoiseGenerator` (noise.cpp) -/

/-- The two methods of the per-channel `NoiseGenerator` that
`ExposedNoiseGenerator::generateBlock` calls, over a generator state `γ`:
`setNoiseType(type)`, and `generateBlock(size, block, stride)` where `block`
is the output memory at the given offset. -/
structure NoiseGeneratorOps (γ α : Type) where
  setNoiseType : γ → Int → γ
  generateBlock : γ → Nat → (Nat → α) → Nat → Nat → γ × (Nat → α)

/-- One call made on a per-channel generator, by its index in `generators`
(kept as a trace of the block). -/
inductive NoiseCall where
  | setNoiseType (index : Nat) (type : Int)
  | generateBlock (index : Nat)
  deriving DecidableEq, Repr

/-- The members of `ExposedNoiseGenerator`; `noise_type` with
`noise_type_changed` is the NOISE_TYPE property and its dirty flag. -/
structure ExposedNoiseGenerator (γ : Type) where
  generators : List γ
  channels : Nat
  noise_type : Int
  noise_type_changed : Bool

/-- Modelled from the spec: the accessor `acquireNoiseType` generated by
property_impl.hpp, which is not among the sources.  "`acquire(out) → bool`
(true if changed since last acquire, with the new value)"; acquiring clears
the dirty flag. -/
def acquireNoiseType {γ : Type} (g : ExposedNoiseGenerator γ) :
    Bool × Int × ExposedNoiseGenerator γ :=
  (g.noise_type_changed, g.noise_type, { g with noise_type_changed := false })

/-- The loop `for (auto &g : this->generators) g.setNoiseType(noise_type)`,
from the generator of index `i` on. -/
def setNoiseTypes {γ α : Type} (ops : NoiseGeneratorOps γ α) (noise_type : Int) :
    Nat → List γ → List γ × List NoiseCall
  | _, [] => ([], [])
  | i, g :: rest =>
    let (rest1, calls) := setNoiseTypes ops noise_type (i + 1) rest
    (ops.setNoiseType g noise_type :: rest1, NoiseCall.setNoiseType i noise_type :: calls)

/-- The loop `for (i = 0; i < channels; i++) generators[i].generateBlock(
BLOCK_SIZE, out + i, channels)`, run over the indices `is`; `none` when an
index is outside `generators`. -/
def generateChannels {γ α : Type} (ops : NoiseGeneratorOps γ α) (BLOCK_SIZE channels : Nat) :
    List Nat → List γ × (Nat → α) × List NoiseCall → Option (List γ × (Nat → α) × List NoiseCall)
  | [], st => some st
  | i :: is, (generators, out, calls) =>
    match generators[i]? with
    | none => none
    | some g =>
      let (g1, out1) := ops.generateBlock g BLOCK_SIZE out i channels
      generateChannels ops BLOCK_SIZE channels is
        (generators.set i g1, out1, calls ++ [NoiseCall.generateBlock i])

/-- The method `ExposedNoiseGenerator::generateBlock(out)`: the generator and
the output afterwards, with the trace of calls on the per-channel
generators. -/
def ExposedNoiseGenerator.generateBlock {γ α : Type} (ops : NoiseGeneratorOps γ α)
    (BLOCK_SIZE : Nat) (g : ExposedNoiseGenerator γ) (out : Nat → α) :
    Option (ExposedNoiseGenerator γ × (Nat → α) × List NoiseCall) :=
  let (changed, noise_type, g1) := acquireNoiseType g
  let (generators1, calls1) :=
    if changed then setNoiseTypes ops noise_type 0 g1.generators else (g1.generators, [])
  match generateChannels ops BLOCK_SIZE g1.channels (List.range g1.channels)
      (generators1, out, calls1) with
  | none => none
  | some (generators2, out1, calls2) => some ({ g1 with generators := generators2 }, out1, calls2)

/-- The output after the first `n` channels of a block have generated, channel
`i` from the generator `start[i]`: what the channel loop of
`ExposedNoiseGenerator::generateBlock` is to leave when it is entered with the
generators `start` and the output `out`. -/
def outputAfterChannels {γ α : Type} (ops : NoiseGeneratorOps γ α) (BLOCK_SIZE channels : Nat)
    (start : List γ) (out : Nat → α) : Nat → Nat → α
  | 0 => out
  | n + 1 =>
    match start[n]? with
    | none => outputAfterChannels ops BLOCK_SIZE channels start out n
    | some g =>
      (ops.generateBlock g BLOCK_SIZE (outputAfterChannels ops BLOCK_SIZE channels start out n) n
        channels).2

/-- Modelled from the spec: the error kinds of the C API (error.hpp and
synthizer_constants.h are not among the sources), as listed under "Error
kinds the core raises". -/
inductive ErrorKind where
  | Range
  | InvalidHandle
  | InvalidProperty
  | ByteStream
  | ByteStreamUnsupportedOperation
  | DecodingError
  | AlreadyInitialized
  | NotInitialized
  | Internal
  deriving DecidableEq, Repr

/-- An exception of the library's `Error` hierarchy: its kind and message. -/
structure SyzException where
  kind : ErrorKind
  message : String
  deriving DecidableEq, Repr

/-- The exception `ERange(message)`. -/
def ERange (message : String) : SyzException := ⟨ErrorKind.Range, message⟩

/-- What `syz_createNoiseGenerator` calls besides its own code, over a world
`W` (the contexts and their objects), context references `C` and object
references `O`: `fromC<Context>(handle)`, `ctx->createObject<
ExposedNoiseGenerator>(channels)` and `toC(object)`. -/
structure NoiseGeneratorApi (W C O : Type) where
  fromC : W → Nat → Except SyzException C
  createObject : W → C → Nat → Except SyzException O × W
  toC : O → Nat

/-- Modelled from the spec: the macros `SYZ_PROLOGUE` and `SYZ_EPILOGUE`
(c_api.hpp is not among the sources).  "Every call returns an error code":
an exception leaving the body becomes the code of its kind, `none` is the
code `0`. -/
def syzEpilogue {β : Type} (body : Except SyzException Unit × β) : Option ErrorKind × β :=
  match body with
  | (.error e, b) => (some e.kind, b)
  | (.ok _, b) => (none, b)

/-- The function `syz_createNoiseGenerator(out, context, channels)`: the error
code, the world and the contents of `*out` afterwards. -/
def syz_createNoiseGenerator {W C O : Type} (api : NoiseGeneratorApi W C O) (w : W) (out : Nat)
    (context : Nat) (channels : Nat) : Option ErrorKind × W × Nat :=
  syzEpilogue <|
    if channels = 0 then
      (.error (ERange "NoiseGenerator must have at least 1 channel"), w, out)
    else
      match api.fromC w context with
      | .error e => (.error e, w, out)
      | .ok ctx =>
        match api.createObject w ctx channels with
        | (.error e, w1) => (.error e, w1, out)
        | (.ok x, w1) => (.ok (), w1, api.toC x)

/-! ## `parseOptions` and `byteStreamToBuffer` (byte_stream.cpp) -/

/-- The function `std::isspace` in the "C" locale: the space and the
characters `\t`, `\n`, `\v`, `\f`, `\r` (codes 9 to 13). -/
def isspace (c : Char) : Bool :=
  c.toNat = 32 || (9 ≤ c.toNat && c.toNat ≤ 13)

/-- The call `std::getline(stream, line, delim)` on what is left of the
stream: the line and what is left after it, the delimiter being dropped;
`none` when nothing was left, in which case the call fails. -/
def getline (delim : Char) : List Char → Option (List Char × List Char)
  | [] => none
  | c :: cs =>
    if c = delim then some ([], cs)
    else
      match getline delim cs with
      | none => some ([c], [])
      | some (line, rest) => some (c :: line, rest)

/-- The loop `while (std::getline(opts_stream, current_opt, '&'))` of
`parseOptions`, on what is left of `opts_stream`.  The key is read by
`std::getline(inner, k, '=')` (an empty `current_opt` leaves `k` empty); the
value is built from `std::istream_iterator<char>`, which reads with `>>` and so
skips white space.  Each iteration uses one unit of fuel. -/
def parseOptionsLoop :
    Nat → List Char → List (List Char × List Char) → List (List Char × List Char)
  | 0, _, parsed => parsed
  | fuel + 1, opts_stream, parsed =>
    match getline '&' opts_stream with
    | none => parsed
    | some (current_opt, rest) =>
      let (k, inner) :=
        match getline '=' current_opt with
        | none => ([], [])
        | some (k, inner) => (k, inner)
      if k.length = 0 then parseOptionsLoop fuel rest parsed
      else
        let v := inner.filter (fun c => !isspace c)
        parseOptionsLoop fuel rest (parsed ++ [(k, v)])

/-- The function `parseOptions(options)`.  Every iteration of its loop takes
at least one character from the stream, so `options.length + 1` iterations
are never exceeded. -/
def parseOptions (options : List Char) : List (List Char × List Char) :=
  parseOptionsLoop (options.length + 1) options []

/-- The option encoding `k_1=v_1&k_2=v_2&...` of a list of pairs, as the
property on `parseOptions` words it. -/
def encodeOptions : List (List Char × List Char) → List Char
  | [] => []
  | [(k, v)] => k ++ '=' :: v
  | (k, v) :: rest => k ++ '=' :: v ++ '&' :: encodeOptions rest

/-- The `ByteStream` interface as used by `byteStreamToBuffer`, over a stream
state `ς`: `read(count, destination)` returns a byte count, the bytes it stored
from `destination[0]` on, and the stream afterwards. -/
structure ByteStream (ς : Type) where
  read : ς → Nat → Nat × List Nat × ς

/-- The constant `BLOCK_SIZE` local to `byteStreamToBuffer`. -/
def byteStreamToBuffer.BLOCK_SIZE : Nat := 8192

/-- The call `std::vector<char>::resize(n)`. -/
def resize (v : List Nat) (n : Nat) : List Nat :=
  v.take n ++ List.replicate (n - v.length) 0

/-- The `do ... while (got)` loop of `byteStreamToBuffer`: the list `blocks`,
`total_size` and the stream at loop exit.  A read that stores more than
`BLOCK_SIZE` bytes overruns the block; the bytes past it are not modelled.
`total_size` cannot wrap, the blocks it sums being held in memory. -/
def byteStreamToBuffer.readBlocks {ς : Type} (stream : ByteStream ς) :
    Nat → ς → List (List Nat) → Nat → Option (List (List Nat) × Nat × ς)
  | 0, _, _, _ => none
  | fuel + 1, s, blocks, total_size =>
    let block := List.replicate byteStreamToBuffer.BLOCK_SIZE 0
    let (got, data, s1) := stream.read s byteStreamToBuffer.BLOCK_SIZE
    let block1 := data.take byteStreamToBuffer.BLOCK_SIZE ++ block.drop data.length
    let block2 := resize block1 got
    let blocks1 := blocks ++ [block2]
    let total_size1 := total_size + got
    if got ≠ 0 then byteStreamToBuffer.readBlocks stream fuel s1 blocks1 total_size1
    else some (blocks1, total_size1, s1)

/-- The loop `for (auto &b : blocks)` of `byteStreamToBuffer`, copying each
block to `cur` and advancing `cur` by its size. -/
def byteStreamToBuffer.copyBlocks : List (List Nat) → Nat → (Nat → Nat) → Nat → Nat
  | [], _, buffer => buffer
  | b :: rest, cur, buffer =>
    byteStreamToBuffer.copyBlocks rest (cur + b.length) (writeAt buffer cur b)

/-- The function `byteStreamToBuffer(stream)`: the size of the array it
allocates, the contents of the array it returns, and the stream afterwards;
`none` when the loop has not finished within `fuel` iterations.  `fresh` is
the contents of the array as allocated. -/
def byteStreamToBuffer {ς : Type} (stream : ByteStream ς) (fuel : Nat) (s : ς)
    (fresh : Nat → Nat) : Option (Nat × (Nat → Nat) × ς) :=
  match byteStreamToBuffer.readBlocks stream fuel s [] 0 with
  | none => none
  | some (blocks, total_size, s1) =>
    some (total_size, byteStreamToBuffer.copyBlocks blocks 0 fresh, s1)

/-- The stream state after `k` reads of `BLOCK_SIZE` bytes. -/
def streamAfter {ς : Type} (stream : ByteStream ς) (s : ς) : Nat → ς
  | 0 => s
  | k + 1 => (stream.read (streamAfter stream s k) byteStreamToBuffer.BLOCK_SIZE).2.2

/-- The byte count returned by read number `k` (from 0) of `BLOCK_SIZE`
bytes. -/
def gotOfRead {ς : Type} (stream : ByteStream ς) (s : ς) (k : Nat) : Nat :=
  (stream.read (streamAfter stream s k) byteStreamToBuffer.BLOCK_SIZE).1

/-- The bytes stored by read number `k` (from 0) of `BLOCK_SIZE` bytes. -/
def chunkOfRead {ς : Type} (stream : ByteStream ς) (s : ς) (k : Nat) : List Nat :=
  (stream.read (streamAfter stream s k) byteStreamToBuffer.BLOCK_SIZE).2.1

/-! ## Successive blocks of the two threads -/

/-- One call on a streaming generator: the background thread decoding a block
into the ring slot `out`, or the audio thread generating a block into
`output`. -/
inductive ThreadStep (α : Type) where
  | background (out : Nat → α)
  | audio (output : Nat → α) (gain_driver : FadeDriver α) (block_time : Nat)

/-- A sequence of calls run one after the other on a streaming generator.
Returns the generator afterwards and, per call, the value observed: after a
`generateBlockInBackground` the `background_position` it left, after a
`generateBlock` the POSITION it reported.  A failure that leaves
`generateBlockInBackground` is followed by the remaining calls all the
same. -/
def runSchedule {σ ρ κ α : Type} [Zero α] [Add α] [Mul α] (dec : AudioDecoder σ α)
    (rs : Resampler ρ α) (bt : BackgroundThread κ α) (BLOCK_SIZE fuel : Nat) :
    List (ThreadStep α) → StreamingGenerator σ ρ κ → Option (StreamingGenerator σ ρ κ × List ℚ)
  | [], g => some (g, [])
  | .background out :: rest, g =>
    match generateBlockInBackground dec rs BLOCK_SIZE fuel g out with
    | none => none
    | some r =>
      match runSchedule dec rs bt BLOCK_SIZE fuel rest r.generator with
      | none => none
      | some (g1, seen) => some (g1, r.generator.background_position :: seen)
  | .audio output gain_driver block_time :: rest, g =>
    let g1 := (generateBlock bt BLOCK_SIZE g output gain_driver block_time).1
    match runSchedule dec rs bt BLOCK_SIZE fuel rest g1 with
    | none => none
    | some (g2, seen) => some (g2, g1.position :: seen)

/-! ## Concrete inputs -/

/-- A seekable decoder over a finite stream of frames, `channels` samples per
frame, at sample rate `sr`.  Its state is the index of the next frame.  A read
returns as many frames as are left, up to the number requested; seeking to
`pos` seconds moves to frame `floor (pos * sr)`, clamped to the stream (the
floor is taken on the numerator and denominator of `pos`). -/
def streamDecoder {α : Type} (frames : List (List α)) (sr : Nat) : AudioDecoder Nat α where
  getSr := fun _ => sr
  supportsSeek := fun _ => true
  writeSamplesInterleaved := fun p num =>
    let chunk := (frames.drop p).take num
    .ok ⟨chunk.length, chunk.flatten, p + chunk.length⟩
  seekSeconds := fun _ pos => .ok (min ((pos.num * sr) / pos.den).toNat frames.length)

/-- A seekable decoder of mono audio at 1 frame per second whose first
`stalls` reads return no frame and whose later reads return one frame holding
`sample`.  Its state counts the reads made. -/
def stallingDecoder {α : Type} (stalls : Nat) (sample : α) : AudioDecoder Nat α where
  getSr := fun _ => 1
  supportsSeek := fun _ => true
  writeSamplesInterleaved := fun n _ =>
    if n < stalls then .ok ⟨0, [], n + 1⟩ else .ok ⟨1, [sample], n + 1⟩
  seekSeconds := fun n _ => .ok n

/-- An Ogg decoder over a file whose every `stb_vorbis_seek` fails and whose
reads return no frame. -/
def seekFailingOgg : AudioDecoder (OggDecoder Unit) Int :=
  oggAudioDecoder (fun v _ => (false, v)) (fun v _ => (0, [], v))

/-- A resampler that asks for as many frames as it is to produce and hands
the output memory back unchanged. -/
def idleResampler : Resampler Unit Int :=
  ⟨fun r n _ => (n, fun _ => 0, r), fun r _ out _ n _ => (n, out, r)⟩

/-- A streaming generator over an Ogg file (stereo, 44100 Hz, seekable
stream) with the seek request `5.0` pending and no resampler. -/
def seekingOggGenerator : StreamingGenerator (OggDecoder Unit) Unit Unit :=
  { decoder := ⟨(), 2, 44100, true, 0⟩, resampler := none, channels := 2, looping := 0,
    next_position := some 5, background_position := 0, position := 0,
    position_changed := false, ring := () }

/-- A ring whose every read yields one frame, sample `j` being
`10 * (j + 1)`. -/
def oneFrameRing : BackgroundThread Unit Int :=
  ⟨fun _ _ => (1, fun j => 10 * ((j : Int) + 1), ())⟩

/-- A non-looping streaming generator of `channels` channels over a stream
decoder at frame 0, with no seek request and no resampler. -/
def plainGenerator (channels : Nat) : StreamingGenerator Nat Unit Unit :=
  { decoder := 0, resampler := none, channels := channels, looping := 0,
    next_position := none, background_position := 0, position := 0,
    position_changed := false, ring := () }

/-- A fade driver with the constant gain `3`. -/
def constantGain : FadeDriver Int := ⟨fun _ _ => 3⟩

/-- Per-channel noise generators whose state is their noise type and whose
block is that type stored at the channel's offset. -/
def typeNoise : NoiseGeneratorOps Int Int :=
  ⟨fun _ t => t, fun g _ out offset _ => (g, Function.update out offset g)⟩

/-- A C API world that is the list of channel counts of the generators
created so far; the only live context handle is `1`, and the handle of a
new object is `100` plus its index. -/
def listApi : NoiseGeneratorApi (List Nat) Unit Nat :=
  { fromC := fun _ h =>
      if h = 1 then .ok () else .error ⟨ErrorKind.InvalidHandle, "not a context"⟩
    createObject := fun w _ channels => (.ok w.length, w ++ [channels])
    toC := fun x => 100 + x }

/-- A two-channel noise generator of type `0` on both channels whose
NOISE_TYPE property was just set to `1`. -/
def retypedNoise : ExposedNoiseGenerator Int :=
  { generators := [0, 0], channels := 2, noise_type := 1, noise_type_changed := true }

/-- A vorbis file as the library call sees it: the state is the number of
frames left, every sample is `1`.  As in stb_vorbis, the last argument counts
floats: the call stores up to `num / channels` frames. -/
def vorbisSamples : Nat → Int → Int → Nat × List Int × Nat :=
  fun left channels num =>
    let got := min (num / channels).toNat left
    (got, List.replicate (got * channels.toNat) 1, left - got)

/-- A `mixChannels` that leaves the output as it is. -/
def idleMixChannels : Nat → List Int → Int → (Nat → Int) → Int → Nat → Int :=
  fun _ _ _ samples _ => samples

/-- An Ogg decoder on a seekable stereo file of 10000 frames at 44100 Hz. -/
def stereoOgg : OggDecoder Nat := ⟨10000, 2, 44100, true, 10000⟩

/-- An Ogg decoder on a seekable mono file of 10000 frames at 44100 Hz. -/
def monoOgg : OggDecoder Nat := ⟨10000, 1, 44100, true, 10000⟩

/-- A byte stream over the list of the bytes left: a read returns as many
bytes as are left, up to the count requested. -/
def listStream : ByteStream (List Nat) :=
  ⟨fun s count => (min count s.length, s.take count, s.drop count)⟩

/-! ## Lemmas on memory and traces -/

/-- The samples of a concatenated trace are those of its parts, in order. -/
theorem delivered_append {α : Type} (l1 l2 : List (DecoderCall α)) :
    delivered (l1 ++ l2) = delivered l1 ++ delivered l2 := by
  induction l1 with
  | nil => rfl
  | cons c rest ih => cases c <;> simp [delivered, ih]

/-- The frames of a concatenated trace are those of its parts, summed. -/
theorem framesRead_append {α : Type} (l1 l2 : List (DecoderCall α)) :
    framesRead (l1 ++ l2) = framesRead l1 + framesRead l2 := by
  induction l1 with
  | nil => simp [framesRead]
  | cons c rest ih => cases c <;> simp [framesRead, ih, Nat.add_assoc]

/-- Copying nothing leaves the memory as it is. -/
theorem writeAt_nil {α : Type} (mem : Nat → α) (c : Nat) : writeAt mem c [] = mem := by
  funext i; simp [writeAt]

/-- Two copies, the second starting where the first ended, are one copy of the
concatenated data. -/
theorem writeAt_writeAt {α : Type} (mem : Nat → α) (c : Nat) (d1 d2 : List α) :
    writeAt (writeAt mem c d1) (c + d1.length) d2 = writeAt mem c (d1 ++ d2) := by
  funext i
  unfold writeAt
  by_cases h1 : i < c
  · have : i < c + d1.length := by omega
    simp [h1, this]
  · by_cases h2 : i < c + d1.length
    · have h3 : i - c < d1.length := by omega
      simp [h1, h2, List.getD_eq_getElem?_getD, List.getElem?_append_left h3]
    · have h3 : d1.length ≤ i - c := by omega
      have h4 : i - c - d1.length = i - (c + d1.length) := by omega
      simp [h1, h2, List.getD_eq_getElem?_getD, List.getElem?_append_right h3, h4,
        List.getElem?_eq_none h3]

/-- The invariant of the loop of `fillBufferFromDecoder` for a decoder whose
reads return at most the frames requested, as `channels` samples per frame:
the frames read and the frames still needed add up, the cursor has advanced by
the samples delivered, and `dest` holds them from the old cursor on. -/
theorem fillLoop_trace {σ α : Type} (dec : AudioDecoder σ α) (channels : Nat) (looping : Bool)
    (sr : Int)
    (hread : ∀ s n w, dec.writeSamplesInterleaved s n = .ok w →
      w.got ≤ n ∧ w.data.length = w.got * channels) :
    ∀ (fuel needed : Nat) (jl : Bool) (cursor : Nat) (pos : ℚ) (env : Env σ α)
      (needed' cursor' : Nat) (pos' : ℚ) (env' : Env σ α),
      needed < UINT_MOD → needed * channels < UINT_MOD →
      fillLoop dec channels looping sr fuel needed jl cursor pos env
        = some (.ok (needed', cursor', pos'), env') →
      ∃ extra, env'.log = env.log ++ extra ∧ framesRead extra + needed' = needed ∧
        (delivered extra).length = framesRead extra * channels ∧
        cursor' = cursor + (delivered extra).length ∧
        env'.dest = writeAt env.dest cursor (delivered extra) := by
  intro fuel
  induction fuel with
  | zero =>
    intro needed jl cursor pos env needed' cursor' pos' env' _ _ h
    simp only [fillLoop] at h
    split at h
    · simp only [Option.some.injEq, Prod.mk.injEq, Except.ok.injEq] at h
      obtain ⟨⟨h1, h2, h3⟩, h4⟩ := h
      subst h1 h2 h4
      exact ⟨[], by simp, by simp [framesRead], by simp [delivered, framesRead], by simp [delivered], by simp [delivered, writeAt_nil]⟩
    · exact absurd h (by simp)
  | succ n ih =>
    intro needed jl cursor pos env needed' cursor' pos' env' hn hslot h
    simp only [fillLoop] at h
    split at h
    · simp only [Option.some.injEq, Prod.mk.injEq, Except.ok.injEq] at h
      obtain ⟨⟨h1, h2, h3⟩, h4⟩ := h
      subst h1 h2 h4
      exact ⟨[], by simp, by simp [framesRead], by simp [delivered, framesRead], by simp [delivered], by simp [delivered, writeAt_nil]⟩
    · split at h
      · exact absurd h (by simp)
      · rename_i w hw
        obtain ⟨hgot, hlen⟩ := hread _ _ _ hw
        have hgm : w.got % UINT_MOD = w.got := Nat.mod_eq_of_lt (by omega)
        have hmul : channels * w.got < UINT_MOD := by
          have : channels * w.got ≤ needed * channels := by
            rw [Nat.mul_comm]; exact Nat.mul_le_mul_right _ hgot
          omega
        have hcm : channels * w.got % UINT_MOD = channels * w.got := Nat.mod_eq_of_lt hmul
        have hnm : (needed + UINT_MOD - w.got) % UINT_MOD = needed - w.got := by
          have : needed + UINT_MOD - w.got = (needed - w.got) + UINT_MOD := by omega
          rw [this, Nat.add_mod_right]; exact Nat.mod_eq_of_lt (by omega)
        simp only [hgm, hcm, hnm] at h
        split at h
        · split at h
          · exact absurd h (by simp)
          · rename_i s hs
            have hslot2 : (needed - w.got) * channels < UINT_MOD := by
              have : (needed - w.got) * channels ≤ needed * channels :=
                Nat.mul_le_mul_right _ (by omega)
              omega
            obtain ⟨extra, e1, e2, e3, e4, e5⟩ := ih _ _ _ _ _ _ _ _ _ (by omega) hslot2 h
            refine ⟨DecoderCall.write needed w.got w.data :: DecoderCall.seek 0 :: extra, ?_, ?_, ?_, ?_, ?_⟩
            · simp [e1]
            · simp only [framesRead]; omega
            · simp only [delivered, framesRead, List.length_append, e3, hlen, Nat.add_mul]
            · simp only [delivered, List.length_append, e4, hlen]; rw [Nat.mul_comm channels]; omega
            · simp only [e5, delivered]
              rw [← writeAt_writeAt, hlen, Nat.mul_comm w.got]
        · simp only [Option.some.injEq, Prod.mk.injEq, Except.ok.injEq] at h
          obtain ⟨⟨h1, h2, h3⟩, h4⟩ := h
          subst h1 h2 h4
          refine ⟨[DecoderCall.write needed w.got w.data], rfl, ?_, ?_, ?_, ?_⟩
          · simp only [framesRead]; omega
          · simp [delivered, framesRead, hlen]
          · simp [delivered, hlen, Nat.mul_comm]
          · simp [delivered]

/-- A read in front of a trace adds no seek. -/
theorem hasSeek_write_cons {α : Type} (num got : Nat) (data : List α) (rest : List (DecoderCall α)) :
    hasSeek (DecoderCall.write num got data :: rest) = hasSeek rest := rfl

/-- A trace without a seek is all after its last seek. -/
theorem afterLastSeek_of_no_seek {α : Type} (l : List (DecoderCall α)) (h : hasSeek l = false) :
    afterLastSeek l = l := by
  induction l with
  | nil => rfl
  | cons c rest ih =>
    cases c with
    | write num got data =>
      rw [hasSeek_write_cons] at h
      simp [afterLastSeek, h]
    | seek p => simp [hasSeek] at h

/-- What the loop of `fillBufferFromDecoder` does to the position, for any
decoder: every seek is to `0`, there is none when `looping` is off, and the
position at exit is the old one plus the frames read over `sr` when no seek
was made, the frames read after the last seek over `sr` otherwise. -/
theorem fillLoop_position {σ α : Type} (dec : AudioDecoder σ α) (channels : Nat) (looping : Bool)
    (sr : Int) :
    ∀ (fuel needed : Nat) (jl : Bool) (cursor : Nat) (pos : ℚ) (env : Env σ α)
      (needed' cursor' : Nat) (pos' : ℚ) (env' : Env σ α),
      fillLoop dec channels looping sr fuel needed jl cursor pos env
        = some (.ok (needed', cursor', pos'), env') →
      ∃ extra, env'.log = env.log ++ extra ∧
        (looping = false → hasSeek extra = false) ∧
        (∀ p, DecoderCall.seek p ∈ extra → p = 0) ∧
        (hasSeek extra = false → pos' = pos + (framesRead extra : ℚ) / (sr : ℚ)) ∧
        (hasSeek extra = true → pos' = (framesRead (afterLastSeek extra) : ℚ) / (sr : ℚ)) := by
  intro fuel
  induction fuel with
  | zero =>
    intro needed jl cursor pos env needed' cursor' pos' env' h
    simp only [fillLoop] at h
    split at h
    · simp only [Option.some.injEq, Prod.mk.injEq, Except.ok.injEq] at h
      obtain ⟨⟨h1, h2, h3⟩, h4⟩ := h
      subst h1 h2 h3 h4
      exact ⟨[], by simp, by simp [hasSeek], by simp, by simp [framesRead], by simp [hasSeek]⟩
    · exact absurd h (by simp)
  | succ n ih =>
    intro needed jl cursor pos env needed' cursor' pos' env' h
    simp only [fillLoop] at h
    split at h
    · simp only [Option.some.injEq, Prod.mk.injEq, Except.ok.injEq] at h
      obtain ⟨⟨h1, h2, h3⟩, h4⟩ := h
      subst h1 h2 h3 h4
      exact ⟨[], by simp, by simp [hasSeek], by simp, by simp [framesRead], by simp [hasSeek]⟩
    · split at h
      · exact absurd h (by simp)
      · rename_i w hw
        split at h
        · rename_i hcond
          split at h
          · exact absurd h (by simp)
          · rename_i s hs
            obtain ⟨extra, e1, e2, e3, e4, e5⟩ := ih _ _ _ _ _ _ _ _ _ h
            refine ⟨DecoderCall.write needed (w.got % UINT_MOD) w.data :: DecoderCall.seek 0 :: extra,
              ?_, ?_, ?_, ?_, ?_⟩
            · simp [e1]
            · intro hl; simp [hl] at hcond
            · intro p hp
              simp only [List.mem_cons] at hp
              rcases hp with hp | hp | hp
              · exact absurd hp (by simp)
              · cases hp; rfl
              · exact e3 p hp
            · intro hs; simp [hasSeek] at hs
            · intro _
              cases hx : hasSeek extra with
              | true =>
                simp only [afterLastSeek, hasSeek, if_true]
                exact e5 hx
              | false =>
                simp only [afterLastSeek, hasSeek, if_true]
                rw [e4 hx, afterLastSeek_of_no_seek extra hx]; simp
        · simp only [Option.some.injEq, Prod.mk.injEq, Except.ok.injEq] at h
          obtain ⟨⟨h1, h2, h3⟩, h4⟩ := h
          subst h1 h2 h3 h4
          refine ⟨[DecoderCall.write needed (w.got % UINT_MOD) w.data], rfl, ?_, ?_, ?_, ?_⟩
          · intro _; rfl
          · intro p hp; simp at hp
          · intro _; simp [framesRead]
          · intro hs; simp [hasSeek] at hs


/-- What the trace of a returning `fillBufferFromDecoder` says about the
returned position. -/
theorem fillBufferFromDecoder_trace {σ α : Type} [Zero α] (dec : AudioDecoder σ α)
    (fuel : Nat) (s : σ) (size channels : Nat) (dest : Nat → α) (looping : Bool)
    (position_in : ℚ) (position : ℚ) (env : Env σ α)
    (hret : fillBufferFromDecoder dec fuel s size channels dest looping position_in
      = some (.ok position, env)) :
    (hasSeek env.log = false →
      position = position_in + (framesRead env.log : ℚ) / (dec.getSr s : ℚ)) ∧
    (hasSeek env.log = true →
      position = (framesRead (afterLastSeek env.log) : ℚ) / (dec.getSr s : ℚ)) ∧
    (∀ p, DecoderCall.seek p ∈ env.log → p = 0) ∧
    (looping = false → hasSeek env.log = false) := by
  unfold fillBufferFromDecoder at hret
  simp only at hret
  split at hret
  · exact absurd hret (by simp)
  · exact absurd hret (by simp)
  · rename_i needed cursor pos env1 hloop
    simp only [Option.some.injEq, Prod.mk.injEq, Except.ok.injEq] at hret
    obtain ⟨hpos, henv⟩ := hret
    obtain ⟨extra, e1, e2, e3, e4, e5⟩ :=
      fillLoop_position dec channels looping _ _ _ _ _ _ _ _ _ _ _ hloop
    simp only [List.nil_append] at e1
    have hlog : env.log = extra := by rw [← henv]; exact e1
    rw [hlog, ← hpos]
    exact ⟨e4, e5, e3, e2⟩

/-! ## The stream decoder -/

/-- A read of the stream decoder. -/
theorem streamDecoder_write {α : Type} (frames : List (List α)) (sr p num : Nat) :
    (streamDecoder frames sr).writeSamplesInterleaved p num =
      .ok ⟨((frames.drop p).take num).length, ((frames.drop p).take num).flatten,
        p + ((frames.drop p).take num).length⟩ := rfl

/-- A seek of the stream decoder. -/
theorem streamDecoder_seek {α : Type} (frames : List (List α)) (sr p : Nat) (pos : ℚ) :
    (streamDecoder frames sr).seekSeconds p pos =
      .ok (min ((pos.num * sr) / pos.den).toNat frames.length) := rfl

/-- The stream decoder is seekable. -/
theorem streamDecoder_supportsSeek {α : Type} (frames : List (List α)) (sr p : Nat) :
    (streamDecoder frames sr).supportsSeek p = true := rfl

/-- The stream decoder reports the sample rate it was built with. -/
theorem streamDecoder_getSr_pos {α : Type} (frames : List (List α)) (sr : Nat) (hsr : 0 < sr) :
    ∀ s, 0 < (streamDecoder frames sr).getSr s := by
  intro s
  show (0 : Int) < (sr : Int)
  exact_mod_cast hsr

/-- The stream decoder returns at most the frames requested, `channels` samples
for each, when every frame of the stream has `channels` samples. -/
theorem streamDecoder_reads_whole_frames {α : Type} (frames : List (List α)) (sr channels : Nat)
    (hframes : ∀ f ∈ frames, f.length = channels) :
    ∀ s n w, (streamDecoder frames sr).writeSamplesInterleaved s n = .ok w →
      w.got ≤ n ∧ w.data.length = w.got * channels := by
  intro s n w hw
  rw [streamDecoder_write] at hw
  cases hw
  refine ⟨by simp, ?_⟩
  show ((frames.drop s).take n).flatten.length = ((frames.drop s).take n).length * channels
  have hall : ∀ f ∈ (frames.drop s).take n, f.length = channels := fun f hf =>
    hframes f (List.mem_of_mem_drop (List.mem_of_mem_take hf))
  generalize (frames.drop s).take n = chunk at hall
  induction chunk with
  | nil => simp
  | cons f rest ih =>
    simp only [List.flatten_cons, List.length_append, List.length_cons, Nat.add_mul, Nat.one_mul]
    rw [ih (fun g hg => hall g (List.mem_cons_of_mem _ hg)), hall f (List.mem_cons_self _ _)]
    omega

/-! ## C1: the loop guard -/

/-- Over an empty stream the loop of `fillBufferFromDecoder` with looping on
never exits: every read returns no frame, which resets `justLooped`, and the
next seek follows. -/
theorem fillLoop_empty_stream (sr channels : Nat) (isr : Int) (needed : Nat) (h0 : 0 < needed)
    (h1 : needed < UINT_MOD) :
    ∀ (fuel : Nat) (jl : Bool) (cursor : Nat) (pos : ℚ) (env : Env Nat Int),
      fillLoop (streamDecoder ([] : List (List Int)) sr) channels true isr fuel needed jl cursor
        pos env = none := by
  intro fuel
  induction fuel with
  | zero => intro jl cursor pos env; simp [fillLoop]; omega
  | succ n ih =>
    intro jl cursor pos env
    have hne : needed ≠ 0 := by omega
    have hmod : (needed + UINT_MOD) % UINT_MOD = needed := by
      rw [Nat.add_mod_right]; exact Nat.mod_eq_of_lt h1
    simp [fillLoop, hne, streamDecoder_write, streamDecoder_seek, streamDecoder_supportsSeek,
      hmod, h0, ih]

/-- C1 (the code at the failing input). With looping on, a seekable decoder
over an empty stream and a one-frame slot, `fillBufferFromDecoder` does not
return, whatever the number of iterations allowed.  And with a decoder whose
first two reads are empty, the trace shows a seek, an empty read, and then
another seek before the first non-empty read. -/
theorem fillBufferFromDecoder_empty_stream_never_returns :
    (∀ fuel : Nat,
      fillBufferFromDecoder (streamDecoder ([] : List (List Int)) 44100) fuel 0 1 1
        (fun _ => 0) true 0 = none) ∧
    (fillBufferFromDecoder (stallingDecoder 2 (7 : Int)) 10 0 1 1 (fun _ => 0) true 0).map
        (fun r => r.2.log)
      = some [DecoderCall.write 1 0 [], DecoderCall.seek 0, DecoderCall.write 1 0 [],
          DecoderCall.seek 0, DecoderCall.write 1 1 [7]] := by
  refine ⟨fun fuel => ?_, by decide⟩
  simp [fillBufferFromDecoder, fillLoop_empty_stream 44100 1 _ 1 (by decide) (by decide)]

/-! ## C2: the slot is filled exactly -/

/-- C2. For a slot that `unsigned int` arithmetic can address (`size` and
`size * channels` below `UINT_MOD`) and a decoder whose reads return at most
the number of frames requested, each as `channels` samples per frame: when
`fillBufferFromDecoder` returns, the first `size * channels` samples of `dest`
are the samples delivered by the reads, in order, followed by zeros for the
`size - framesRead` remaining frames, and every sample from index
`size * channels` on is what it was before the call. -/
theorem fillBufferFromDecoder_fills_slot {σ α : Type} [Zero α] (dec : AudioDecoder σ α)
    (fuel : Nat) (s : σ) (size channels : Nat) (dest : Nat → α) (looping : Bool)
    (position_in : ℚ) (position : ℚ) (env : Env σ α)
    (hread : ∀ s n w, dec.writeSamplesInterleaved s n = .ok w →
      w.got ≤ n ∧ w.data.length = w.got * channels)
    (hsize : size < UINT_MOD) (hslot : size * channels < UINT_MOD)
    (hret : fillBufferFromDecoder dec fuel s size channels dest looping position_in
      = some (.ok position, env)) :
    framesRead env.log ≤ size ∧
    (delivered env.log).length = framesRead env.log * channels ∧
    (∀ i, i < size * channels → env.dest i =
      (delivered env.log ++ List.replicate ((size - framesRead env.log) * channels) 0).getD i 0) ∧
    (∀ i, size * channels ≤ i → env.dest i = dest i) := by
  unfold fillBufferFromDecoder at hret
  simp only at hret
  split at hret
  · exact absurd hret (by simp)
  · exact absurd hret (by simp)
  · rename_i needed cursor pos env1 hloop
    simp only [Option.some.injEq, Prod.mk.injEq, Except.ok.injEq] at hret
    obtain ⟨_, henv⟩ := hret
    obtain ⟨extra, e1, e2, e3, e4, e5⟩ :=
      fillLoop_trace dec channels looping _ hread _ _ _ _ _ _ _ _ _ _ hsize hslot hloop
    simp only [List.nil_append, Nat.zero_add] at e1 e4
    have hlog : env.log = extra := by rw [← henv]; exact e1
    have hnc : needed * channels < UINT_MOD := by
      have : needed * channels ≤ size * channels := Nat.mul_le_mul_right _ (by omega)
      omega
    have hdest : env.dest = fill (writeAt dest 0 (delivered extra)) cursor
        (cursor + needed * channels) 0 := by
      rw [← henv]; simp only [e5, Nat.mod_eq_of_lt hnc]
    have hneeded : size - framesRead extra = needed := by omega
    have htotal : cursor + needed * channels = size * channels := by
      rw [e4, e3, ← Nat.add_mul, e2]
    rw [hlog, hneeded]
    refine ⟨by omega, e3, ?_, ?_⟩
    · intro i hi
      rw [hdest]
      unfold fill writeAt
      by_cases hc : i < cursor
      · have h1 : ¬ (cursor ≤ i ∧ i < cursor + needed * channels) := by omega
        have h2 : i < (delivered extra).length := by omega
        simp [h1, List.getD_eq_getElem?_getD, List.getElem?_append_left h2,
          List.getElem?_eq_getElem h2]
      · have h1 : cursor ≤ i ∧ i < cursor + needed * channels := by omega
        have h2 : (delivered extra).length ≤ i := by omega
        have h3 : i - (delivered extra).length < needed * channels := by omega
        simp [h1, List.getD_eq_getElem?_getD, List.getElem?_append_right h2, h3]
    · intro i hi
      rw [hdest]
      unfold fill writeAt
      have h1 : ¬ (cursor ≤ i ∧ i < cursor + needed * channels) := by omega
      have h2 : (delivered extra).length ≤ i := by omega
      simp [h1, List.getD_eq_getElem?_getD, List.getElem?_eq_none h2]

/-- Witness for C2: two frames of a three-frame mono slot come from the
stream, the third is zero, and the memory behind the slot keeps its `5`s. -/
theorem fillBufferFromDecoder_fills_slot_witness :
    ∃ (position : ℚ) (env : Env Nat Int),
      fillBufferFromDecoder (streamDecoder [[7], [8]] 1) 10 0 3 1 (fun _ => 5) false 0
        = some (.ok position, env) ∧
      (List.range 5).map env.dest = [7, 8, 0, 5, 5] ∧
      (framesRead env.log ≤ 3 ∧
        (delivered env.log).length = framesRead env.log * 1 ∧
        (∀ i, i < 3 * 1 → env.dest i =
          (delivered env.log ++ List.replicate ((3 - framesRead env.log) * 1) 0).getD i 0) ∧
        (∀ i, 3 * 1 ≤ i → env.dest i = (fun _ => (5 : Int)) i)) := by
  have h : fillBufferFromDecoder (streamDecoder [[7], [8]] 1) 10 0 3 1 (fun _ => (5 : Int)) false 0
        = some (.ok _, _) := rfl
  exact ⟨_, _, h, by decide,
    fillBufferFromDecoder_fills_slot (streamDecoder [[7], [8]] 1) 10 0 3 1 (fun _ => 5) false 0
      _ _ (streamDecoder_reads_whole_frames _ 1 1 (by decide)) (by decide) (by decide) h⟩
/-! ## C3: `MemoryLookaheadStream::read` -/

/-- The loop of `MemoryLookaheadStream::read` never exits when `count > 0`:
`got` stays `0`, and with no block recorded the nested call is the same call
again. -/
theorem readLoop_never_returns {ς : Type} :
    ∀ (fuel : Nat) (st : MemoryLookaheadStream ς) (count destination : Nat) (mem : Nat → Nat),
      0 < count → MemoryLookaheadStream.readLoop fuel st count 0 destination mem = none := by
  intro fuel
  induction fuel with
  | zero => intro st count destination mem h; simp [MemoryLookaheadStream.readLoop, h]
  | succ n ih =>
    intro st count destination mem h
    simp only [MemoryLookaheadStream.readLoop, h, if_true]
    split
    · exact ih _ _ _ _ h
    · rw [ih st LOOKAHEAD_BLOCK_SIZE 0 _ (by decide)]

/-- C3 (the code at the failing input). On a newly constructed
`MemoryLookaheadStream` over a stream holding the bytes `1, 2, 3`,
`read(1, destination)` does not return, whatever the number of iterations and
nested calls allowed. -/
theorem MemoryLookaheadStream_read_never_returns :
    ∀ fuel : Nat,
      MemoryLookaheadStream.read fuel (MemoryLookaheadStream.construct [1, 2, 3]) 1 0 (fun _ => 0)
        = none :=
  fun fuel => readLoop_never_returns fuel _ 1 0 _ (by decide)

/-! ## C4: failures of the decoder in the background thread -/

/-- A thrown value that leaves `generateBlockInBackground` is one that
`catch (std::exception &)` does not catch: exceptions thrown by value are
caught and the call returns normally. -/
theorem generateBlockInBackground_catches {σ ρ κ α : Type} [Zero α] (dec : AudioDecoder σ α)
    (rs : Resampler ρ α) (BLOCK_SIZE fuel : Nat) (g : StreamingGenerator σ ρ κ) (out : Nat → α)
    (r : BackgroundResult σ ρ κ α) (e : Thrown)
    (h : generateBlockInBackground dec rs BLOCK_SIZE fuel g out = some r)
    (he : r.escaped = some e) : catchesStdException e = false := by
  unfold generateBlockInBackground at h
  split at h
  · exact absurd h (by simp)
  · rename_i r0 _
    split at h
    · rename_i hn
      cases h
      rw [hn] at he
      exact absurd he (by simp)
    · rename_i e0 he0
      split at h
      · cases h
        exact absurd he (by simp)
      · rename_i hne
        cases h
        rw [he0] at he
        cases he
        simpa using hne

/-- C4 (the code at the failing input). When the vorbis seek fails,
`OggDecoder::seekPcm` throws a pointer (`throw new Error(...)`), which the
handler `catch (std::exception &)` does not catch; so with a seek request
pending on such a decoder, the failure leaves `generateBlockInBackground`. -/
theorem generateBlockInBackground_seekPcm_failure_escapes :
    OggDecoder.seekPcm (fun v _ => (false, v)) seekingOggGenerator.decoder 220500
      = .error (Thrown.pointer "Unable to seek.", seekingOggGenerator.decoder) ∧
    catchesStdException (Thrown.pointer "Unable to seek.") = false ∧
    (generateBlockInBackground seekFailingOgg idleResampler 256 10 seekingOggGenerator
        (fun _ => 0)).map (fun r => r.escaped)
      = some (some (Thrown.pointer "Unable to seek.")) :=
  ⟨rfl, rfl, by decide⟩

/-! ## C5: `generateBlock` adds to the output -/

/-- The inner loop of `generateBlock` after `n` channels of frame `i`. -/
theorem mixFrame_range {α : Type} [Add α] [Mul α] (channels : Nat) (g : α) (tmp_buf : Nat → α)
    (i : Nat) (hi : i * channels + channels ≤ UINT_MOD) (output : Nat → α) :
    ∀ n, n ≤ channels → ∀ j,
      (List.range n).foldl
        (fun out ch =>
          let idx := (i * channels + ch) % UINT_MOD
          Function.update out idx (out idx + g * tmp_buf idx))
        output j
      = if i * channels ≤ j ∧ j < i * channels + n then output j + g * tmp_buf j else output j := by
  intro n
  induction n with
  | zero =>
    intro _ j
    rw [List.range_zero, List.foldl_nil, if_neg (by omega)]
  | succ n ih =>
    intro hn j
    rw [List.range_succ, List.foldl_append]
    simp only [List.foldl_cons, List.foldl_nil]
    have hmod : (i * channels + n) % UINT_MOD = i * channels + n := Nat.mod_eq_of_lt (by omega)
    rw [hmod]
    by_cases hj : j = i * channels + n
    · subst hj
      rw [Function.update_same, ih (by omega)]
      have h1 : ¬ (i * channels ≤ i * channels + n ∧ i * channels + n < i * channels + n) := by
        omega
      have h2 : i * channels ≤ i * channels + n ∧ i * channels + n < i * channels + (n + 1) := by
        omega
      simp [h1, h2]
    · rw [Function.update_noteq hj, ih (by omega)]
      by_cases h1 : i * channels ≤ j ∧ j < i * channels + n
      · have h2 : i * channels ≤ j ∧ j < i * channels + (n + 1) := by omega
        simp [h1, h2]
      · have h2 : ¬ (i * channels ≤ j ∧ j < i * channels + (n + 1)) := by omega
        simp [h1, h2]

/-- The inner loop of `generateBlock` adds to the samples of frame `i` and to no
other. -/
theorem mixFrame_apply {α : Type} [Add α] [Mul α] (channels : Nat) (g : α) (tmp_buf : Nat → α)
    (i : Nat) (hi : i * channels + channels ≤ UINT_MOD) (output : Nat → α) (j : Nat) :
    mixFrame channels g tmp_buf i output j
      = if i * channels ≤ j ∧ j < i * channels + channels then output j + g * tmp_buf j
        else output j :=
  mixFrame_range channels g tmp_buf i hi output channels (Nat.le_refl _) j

/-- The outer loop of `generateBlock` adds to the samples of the first `got`
frames and to no other. -/
theorem mixBlock_apply {α : Type} [Add α] [Mul α] (channels : Nat) (gain_cb : Nat → α)
    (tmp_buf : Nat → α) (output : Nat → α) :
    ∀ got, got * channels ≤ UINT_MOD → ∀ j,
      mixBlock channels got gain_cb tmp_buf output j
      = if j < got * channels then output j + gain_cb (j / channels) * tmp_buf j
        else output j := by
  intro got
  induction got with
  | zero => intro _ j; simp [mixBlock]
  | succ n ih =>
    intro hn j
    have hn1 : n * channels + channels ≤ UINT_MOD := by rw [← Nat.succ_mul]; exact hn
    have ih1 := ih (by omega)
    unfold mixBlock at ih1 ⊢
    rw [List.range_succ, List.foldl_append]
    simp only [List.foldl_cons, List.foldl_nil]
    rw [mixFrame_apply channels _ tmp_buf n hn1, ih1 j]
    have hs : (n + 1) * channels = n * channels + channels := Nat.succ_mul _ _
    by_cases h1 : j < n * channels
    · have h2 : ¬ (n * channels ≤ j ∧ j < n * channels + channels) := by omega
      have h3 : j < (n + 1) * channels := by omega
      simp [h1, h2, h3]
    · by_cases h2 : j < n * channels + channels
      · have h3 : n * channels ≤ j ∧ j < n * channels + channels := by omega
        have h4 : j < (n + 1) * channels := by omega
        have hc : 0 < channels := by
          rcases Nat.eq_zero_or_pos channels with h0 | h0
          · subst h0; omega
          · exact h0
        have h5 : j / channels = n := by
          apply Nat.div_eq_of_lt_le
          · omega
          · rw [hs]; omega
        simp [h1, h3, h4, h5]
      · have h3 : ¬ (n * channels ≤ j ∧ j < n * channels + channels) := by omega
        have h4 : ¬ j < (n + 1) * channels := by omega
        simp [h1, h3, h4]

/-- C5. `StreamingGenerator::generateBlock` adds to the output: if the ring
yields `got ≤ BLOCK_SIZE` frames (a block of `channels` channels being
addressable with `unsigned int` indices), then for every frame `i < got` and
channel `ch` the new `output[i * channels + ch]` is the old value plus
`gain(i)` times the ring sample at that index, and every output sample from
index `got * channels` on (the frames `i ≥ got`) is left as it was. -/
theorem generateBlock_adds {σ ρ κ α : Type} [Add α] [Mul α] (bt : BackgroundThread κ α)
    (BLOCK_SIZE : Nat) (g : StreamingGenerator σ ρ κ) (output : Nat → α)
    (gain_driver : FadeDriver α) (block_time : Nat)
    (hgot : (bt.read g.ring BLOCK_SIZE).1 ≤ BLOCK_SIZE)
    (hblock : BLOCK_SIZE * g.channels < UINT_MOD) :
    (∀ i ch, i < (bt.read g.ring BLOCK_SIZE).1 → ch < g.channels →
      (generateBlock bt BLOCK_SIZE g output gain_driver block_time).2 (i * g.channels + ch)
        = output (i * g.channels + ch)
          + gain_driver.gain block_time i * (bt.read g.ring BLOCK_SIZE).2.1 (i * g.channels + ch)) ∧
    (∀ j, (bt.read g.ring BLOCK_SIZE).1 * g.channels ≤ j →
      (generateBlock bt BLOCK_SIZE g output gain_driver block_time).2 j = output j) := by
  have hle : (bt.read g.ring BLOCK_SIZE).1 * g.channels ≤ UINT_MOD := by
    have : (bt.read g.ring BLOCK_SIZE).1 * g.channels ≤ BLOCK_SIZE * g.channels :=
      Nat.mul_le_mul_right _ hgot
    omega
  have hout : ∀ j, (generateBlock bt BLOCK_SIZE g output gain_driver block_time).2 j
      = mixBlock g.channels (bt.read g.ring BLOCK_SIZE).1 (gain_driver.gain block_time)
          (bt.read g.ring BLOCK_SIZE).2.1 output j := by
    intro j
    unfold generateBlock acquirePosition FadeDriver.drive
    cases g.position_changed <;> rfl
  constructor
  · intro i ch hi hch
    rw [hout, mixBlock_apply _ _ _ _ _ hle]
    have h1 : i * g.channels + ch < (bt.read g.ring BLOCK_SIZE).1 * g.channels := by
      have : (i + 1) * g.channels ≤ (bt.read g.ring BLOCK_SIZE).1 * g.channels :=
        Nat.mul_le_mul_right _ hi
      rw [Nat.succ_mul] at this
      omega
    have h2 : (i * g.channels + ch) / g.channels = i := by
      apply Nat.div_eq_of_lt_le
      · omega
      · rw [Nat.succ_mul]; omega
    simp [h1, h2]
  · intro j hj
    rw [hout, mixBlock_apply _ _ _ _ _ hle]
    have h1 : ¬ j < (bt.read g.ring BLOCK_SIZE).1 * g.channels := by omega
    simp [h1]

/-- Witness for C5: a ring that yields one stereo frame `(10, 20)` of a
two-frame block, gain `3`, output `1` everywhere before the call. -/
theorem generateBlock_adds_witness :
    (List.range 5).map
        (generateBlock oneFrameRing 2 (plainGenerator 2) (fun _ => 1) constantGain 0).2
      = [31, 61, 1, 1, 1] ∧
    ((∀ i ch, i < (oneFrameRing.read (plainGenerator 2).ring 2).1 →
        ch < (plainGenerator 2).channels →
        (generateBlock oneFrameRing 2 (plainGenerator 2) (fun _ => 1) constantGain 0).2
            (i * (plainGenerator 2).channels + ch)
          = (fun _ => (1 : Int)) (i * (plainGenerator 2).channels + ch)
            + constantGain.gain 0 i
              * (oneFrameRing.read (plainGenerator 2).ring 2).2.1
                  (i * (plainGenerator 2).channels + ch)) ∧
      (∀ j, (oneFrameRing.read (plainGenerator 2).ring 2).1 * (plainGenerator 2).channels ≤ j →
        (generateBlock oneFrameRing 2 (plainGenerator 2) (fun _ => 1) constantGain 0).2 j
          = (fun _ => (1 : Int)) j)) :=
  ⟨by decide,
    generateBlock_adds oneFrameRing 2 (plainGenerator 2) (fun _ => 1) constantGain 0
      (by decide) (by decide)⟩

/-! ## C6: `syz_createNoiseGenerator` with no channel -/

/-- C6. `syz_createNoiseGenerator` with `channels = 0` returns the Range
error and leaves the world and `*out` as they were; with `channels ≥ 1` it
does not return Range, the calls it makes (`fromC`, `createObject`) raising
no Range error themselves. -/
theorem syz_createNoiseGenerator_range {W C O : Type} (api : NoiseGeneratorApi W C O) (w : W)
    (out context : Nat)
    (hfromC : ∀ w h e, api.fromC w h = .error e → e.kind ≠ ErrorKind.Range)
    (hcreate : ∀ w c n e, (api.createObject w c n).1 = .error e → e.kind ≠ ErrorKind.Range) :
    syz_createNoiseGenerator api w out context 0 = (some ErrorKind.Range, w, out) ∧
    (∀ channels, 1 ≤ channels →
      (syz_createNoiseGenerator api w out context channels).1 ≠ some ErrorKind.Range) := by
  constructor
  · simp [syz_createNoiseGenerator, syzEpilogue, ERange]
  · intro channels hch
    have hne : channels ≠ 0 := by omega
    unfold syz_createNoiseGenerator
    simp only [hne, if_false]
    cases hf : api.fromC w context with
    | error e =>
      have := hfromC _ _ _ hf
      simpa [syzEpilogue] using this
    | ok ctx =>
      simp only
      have hc := hcreate w ctx channels
      cases hx : api.createObject w ctx channels with
      | mk res w1 =>
        rw [hx] at hc
        cases res with
        | error e => have := hc e rfl; simpa [syzEpilogue] using this
        | ok x => simp [syzEpilogue]

/-- Witness for C6: in a world with one generator, a call with no channel
returns Range and changes nothing; a call with two channels creates the
second object. -/
theorem syz_createNoiseGenerator_range_witness :
    syz_createNoiseGenerator listApi [2] 0 1 2 = (none, [2, 2], 101) ∧
    (syz_createNoiseGenerator listApi [2] 0 1 0 = (some ErrorKind.Range, [2], 0) ∧
      (∀ channels, 1 ≤ channels →
        (syz_createNoiseGenerator listApi [2] 0 1 channels).1 ≠ some ErrorKind.Range)) :=
  ⟨by decide,
    syz_createNoiseGenerator_range listApi [2] 0 1
      (by
        intro w h e he
        unfold listApi at he
        simp only at he
        split at he
        · exact absurd he (by simp)
        · cases he; decide)
      (by intro w c n e he; exact absurd he (by simp [listApi]))⟩

/-! ## C7: position bookkeeping -/

/-- C7. With `sr > 0`, over exact rationals: when `fillBufferFromDecoder`
returns, every seek it made was to `0`; if it made none (no wrap), the
returned position is `position_in + framesRead / sr`, which is at least
`position_in`; if it made one (a wrap), the returned position is the number of
frames read after the last seek, divided by `sr`.  Each read advances the
position by `got / sr`. -/
theorem fillBufferFromDecoder_position {σ α : Type} [Zero α] (dec : AudioDecoder σ α)
    (fuel : Nat) (s : σ) (size channels : Nat) (dest : Nat → α) (looping : Bool)
    (position_in : ℚ) (position : ℚ) (env : Env σ α)
    (hsr : 0 < dec.getSr s)
    (hret : fillBufferFromDecoder dec fuel s size channels dest looping position_in
      = some (.ok position, env)) :
    (∀ p, DecoderCall.seek p ∈ env.log → p = 0) ∧
    (hasSeek env.log = false →
      position = position_in + (framesRead env.log : ℚ) / (dec.getSr s : ℚ) ∧
      position_in ≤ position) ∧
    (hasSeek env.log = true →
      position = (framesRead (afterLastSeek env.log) : ℚ) / (dec.getSr s : ℚ) ∧
      0 ≤ position) := by
  have hq : (0 : ℚ) < (dec.getSr s : ℚ) := by exact_mod_cast hsr
  have hnn : ∀ n : Nat, (0 : ℚ) ≤ (n : ℚ) / (dec.getSr s : ℚ) := fun n =>
    div_nonneg (Nat.cast_nonneg n) (le_of_lt hq)
  obtain ⟨h1, h2, h3, _⟩ := fillBufferFromDecoder_trace dec fuel s size channels dest looping
    position_in position env hret
  refine ⟨h3, fun h => ⟨h1 h, ?_⟩, fun h => ⟨h2 h, ?_⟩⟩
  · rw [h1 h]; exact le_add_of_nonneg_right (hnn _)
  · rw [h2 h]; exact hnn _

/-- Witness for C7: a two-frame stream at 2 frames per second, read into a
three-frame slot with looping from position 5: one wrap, then one frame. -/
theorem fillBufferFromDecoder_position_witness :
    ∃ (position : ℚ) (env : Env Nat Int),
      fillBufferFromDecoder (streamDecoder [[7], [8]] 2) 10 0 3 1 (fun _ => 5) true 5
        = some (.ok position, env) ∧
      ((∀ p, DecoderCall.seek p ∈ env.log → p = 0) ∧
      (hasSeek env.log = false →
        position = 5 + (framesRead env.log : ℚ) / ((streamDecoder [[7], [8]] 2).getSr 0 : ℚ) ∧
        5 ≤ position) ∧
      (hasSeek env.log = true →
        position = (framesRead (afterLastSeek env.log) : ℚ)
          / ((streamDecoder [[7], [8]] 2).getSr 0 : ℚ) ∧
        0 ≤ position)) := by
  have h : fillBufferFromDecoder (streamDecoder [[7], [8]] 2) 10 0 3 1 (fun _ => (5 : Int)) true 5
        = some (.ok _, _) := rfl
  exact ⟨_, _, h,
    fillBufferFromDecoder_position (streamDecoder [[7], [8]] 2) 10 0 3 1 (fun _ => 5) true 5
      _ _ (by decide) h⟩

/-! ## C8: the reported position does not decrease -/

/-- With `looping` off the loop of `fillBufferFromDecoder` exits within one
iteration. -/
theorem fillLoop_not_looping {σ α : Type} (dec : AudioDecoder σ α) (channels : Nat) (sr : Int)
    (fuel needed : Nat) (jl : Bool) (cursor : Nat) (pos : ℚ) (env : Env σ α) :
    fillLoop dec channels false sr (fuel + 1) needed jl cursor pos env ≠ none := by
  simp only [fillLoop]
  split
  · simp
  · split
    · simp
    · simp

/-- With `looping` off `fillBufferFromDecoder` returns (or throws) as soon as one
iteration is allowed. -/
theorem fillBufferFromDecoder_not_looping {σ α : Type} [Zero α] (dec : AudioDecoder σ α)
    (fuel : Nat) (s : σ) (size channels : Nat) (dest : Nat → α) (position_in : ℚ) :
    fillBufferFromDecoder dec (fuel + 1) s size channels dest false position_in ≠ none := by
  unfold fillBufferFromDecoder
  simp only
  split
  · rename_i h; exact absurd h (fillLoop_not_looping _ _ _ _ _ _ _ _ _)
  · simp
  · simp

/-- With `looping` off and a positive sample rate the position returned by
`fillBufferFromDecoder` is at least the one passed in. -/
theorem fillBufferFromDecoder_not_looping_le {σ α : Type} [Zero α] (dec : AudioDecoder σ α)
    (hsr : ∀ s, 0 < dec.getSr s)
    (fuel : Nat) (s : σ) (size channels : Nat) (dest : Nat → α) (position_in position : ℚ)
    (env : Env σ α)
    (h : fillBufferFromDecoder dec fuel s size channels dest false position_in
      = some (.ok position, env)) : position_in ≤ position := by
  obtain ⟨h1, h2, _, h4⟩ := fillBufferFromDecoder_trace dec fuel s size channels dest false
    position_in position env h
  have hq : (0 : ℚ) < (dec.getSr s : ℚ) := by exact_mod_cast hsr s
  rw [h1 (h4 rfl)]
  exact le_add_of_nonneg_right (div_nonneg (Nat.cast_nonneg _) (le_of_lt hq))

/-- One background block of a non-looping generator with no seek request
pending: the call ends, `background_position` has not decreased, and the
seek slot, LOOPING and the dirty flag of POSITION are as before. -/
theorem generateBlockInBackground_step {σ ρ κ α : Type} [Zero α] (dec : AudioDecoder σ α)
    (rs : Resampler ρ α) (BLOCK_SIZE fuel : Nat) (g : StreamingGenerator σ ρ κ) (out : Nat → α)
    (hsr : ∀ s, 0 < dec.getSr s) (hloop : g.looping ≠ 1) (hslot : g.next_position = none) :
    ∃ r, generateBlockInBackground dec rs BLOCK_SIZE (fuel + 1) g out = some r ∧
      g.background_position ≤ r.generator.background_position ∧
      r.generator.looping = g.looping ∧ r.generator.next_position = none ∧
      r.generator.position_changed = g.position_changed := by
  have hl : decide (g.looping = 1) = false := by simp [hloop]
  unfold generateBlockInBackground generateBlockInBackgroundTry
  simp only [hslot, hl]
  cases hr : g.resampler with
  | none =>
    simp only
    cases hf : fillBufferFromDecoder dec (fuel + 1) g.decoder (BLOCK_SIZE % UINT_MOD) g.channels
        out false g.background_position with
    | none => exact absurd hf (fillBufferFromDecoder_not_looping _ _ _ _ _ _ _)
    | some res =>
      obtain ⟨res1, env⟩ := res
      cases res1 with
      | error e =>
        simp only
        cases catchesStdException e <;> simp
      | ok position1 =>
        have := fillBufferFromDecoder_not_looping_le dec hsr _ _ _ _ _ _ _ _ hf
        simp [this]
  | some r =>
    simp only
    cases hf : fillBufferFromDecoder dec (fuel + 1) g.decoder
        ((rs.ResamplePrepare r BLOCK_SIZE g.channels).1 % UINT_MOD) g.channels
        (rs.ResamplePrepare r BLOCK_SIZE g.channels).2.1 false g.background_position with
    | none => exact absurd hf (fillBufferFromDecoder_not_looping _ _ _ _ _ _ _)
    | some res =>
      obtain ⟨res1, env⟩ := res
      cases res1 with
      | error e =>
        simp only
        cases catchesStdException e <;> simp
      | ok position1 =>
        have := fillBufferFromDecoder_not_looping_le dec hsr _ _ _ _ _ _ _ _ hf
        simp [this]

/-- One audio block of a generator whose POSITION was not set by the user: it
reports the current `background_position` and leaves it, LOOPING and the seek
slot as they were. -/
theorem generateBlock_state {σ ρ κ α : Type} [Add α] [Mul α] (bt : BackgroundThread κ α)
    (BLOCK_SIZE : Nat) (g : StreamingGenerator σ ρ κ) (output : Nat → α)
    (gain_driver : FadeDriver α) (block_time : Nat) (hchanged : g.position_changed = false) :
    (generateBlock bt BLOCK_SIZE g output gain_driver block_time).1.position
      = g.background_position ∧
    (generateBlock bt BLOCK_SIZE g output gain_driver block_time).1.background_position
      = g.background_position ∧
    (generateBlock bt BLOCK_SIZE g output gain_driver block_time).1.looping = g.looping ∧
    (generateBlock bt BLOCK_SIZE g output gain_driver block_time).1.next_position
      = g.next_position ∧
    (generateBlock bt BLOCK_SIZE g output gain_driver block_time).1.position_changed = false := by
  unfold generateBlock acquirePosition setPosition
  simp [hchanged]

/-- C8. For a non-looping streaming generator with no seek request pending
and POSITION not set by the user, over a decoder with a positive sample rate:
every sequence of `generateBlockInBackground` and `generateBlock` calls runs
to its end, and the values observed along it (the `background_position` left
by each background block, on the direct and on the resampled path and also
when the decoder fails, and the POSITION reported by each audio block) never
decrease, starting from the initial `background_position`. -/
theorem position_nondecreasing {σ ρ κ α : Type} [Zero α] [Add α] [Mul α]
    (dec : AudioDecoder σ α) (rs : Resampler ρ α) (bt : BackgroundThread κ α)
    (BLOCK_SIZE fuel : Nat) (steps : List (ThreadStep α)) (g : StreamingGenerator σ ρ κ)
    (hsr : ∀ s, 0 < dec.getSr s) (hloop : g.looping ≠ 1) (hslot : g.next_position = none)
    (hchanged : g.position_changed = false) :
    ∃ g1 seen, runSchedule dec rs bt BLOCK_SIZE (fuel + 1) steps g = some (g1, seen) ∧
      List.Chain (· ≤ ·) g.background_position seen := by
  induction steps generalizing g with
  | nil => exact ⟨g, [], rfl, List.Chain.nil⟩
  | cons step rest ih =>
    cases step with
    | background out =>
      obtain ⟨r, hr, hle, h1, h2, h3⟩ :=
        generateBlockInBackground_step dec rs BLOCK_SIZE fuel g out hsr hloop hslot
      obtain ⟨g1, seen, hrun, hchain⟩ :=
        ih r.generator (by rw [h1]; exact hloop) h2 (by rw [h3]; exact hchanged)
      exact ⟨g1, r.generator.background_position :: seen, by simp [runSchedule, hr, hrun],
        List.Chain.cons hle hchain⟩
    | audio output gain_driver block_time =>
      obtain ⟨h1, h2, h3, h4, h5⟩ :=
        generateBlock_state bt BLOCK_SIZE g output gain_driver block_time hchanged
      obtain ⟨g1, seen, hrun, hchain⟩ :=
        ih (generateBlock bt BLOCK_SIZE g output gain_driver block_time).1
          (by rw [h3]; exact hloop) (by rw [h4]; exact hslot) h5
      refine ⟨g1, (generateBlock bt BLOCK_SIZE g output gain_driver block_time).1.position :: seen,
        by simp [runSchedule, hrun], ?_⟩
      rw [h2] at hchain
      rw [h1]
      exact List.Chain.cons (le_refl _) hchain

/-- Witness for C8: a mono generator over a three-frame stream, blocks of two
frames; a background block, an audio block, a background block, an audio
block. -/
theorem position_nondecreasing_witness :
    ∃ g1 seen,
      runSchedule (streamDecoder [[7], [8], [9]] 1) idleResampler oneFrameRing 2 (0 + 1)
        [ThreadStep.background (fun _ => 0), ThreadStep.audio (fun _ => 1) constantGain 0,
          ThreadStep.background (fun _ => 0), ThreadStep.audio (fun _ => 1) constantGain 1]
        (plainGenerator 1) = some (g1, seen) ∧
      List.Chain (· ≤ ·) (plainGenerator 1).background_position seen :=
  position_nondecreasing (streamDecoder [[7], [8], [9]] 1) idleResampler oneFrameRing 2 0
    [ThreadStep.background (fun _ => 0), ThreadStep.audio (fun _ => 1) constantGain 0,
      ThreadStep.background (fun _ => 0), ThreadStep.audio (fun _ => 1) constantGain 1]
    (plainGenerator 1) (streamDecoder_getSr_pos _ 1 (by decide)) (by decide) rfl rfl

/-! ## C9: a change of noise type reaches all channels first -/

/-- The loop over `generators` sets the type of each and calls `setNoiseType`
once per generator, in order. -/
theorem setNoiseTypes_spec {γ α : Type} (ops : NoiseGeneratorOps γ α) (noise_type : Int) :
    ∀ (generators : List γ) (i : Nat),
      (setNoiseTypes ops noise_type i generators).1
        = generators.map (fun g => ops.setNoiseType g noise_type) ∧
      (setNoiseTypes ops noise_type i generators).2
        = (List.range' i generators.length).map (fun k => NoiseCall.setNoiseType k noise_type) := by
  intro generators
  induction generators with
  | nil => intro i; simp [setNoiseTypes]
  | cons g rest ih =>
    intro i
    obtain ⟨h1, h2⟩ := ih (i + 1)
    simp only [setNoiseTypes, h1, h2]
    simp [List.range'_succ]

/-- The loop over the channels calls `generateBlock` once per index, in order,
when every index has a generator. -/
theorem generateChannels_spec {γ α : Type} (ops : NoiseGeneratorOps γ α)
    (BLOCK_SIZE channels : Nat) :
    ∀ (indices : List Nat) (generators : List γ) (out : Nat → α) (calls : List NoiseCall),
      (∀ i ∈ indices, i < generators.length) →
      ∃ generators1 out1,
        generateChannels ops BLOCK_SIZE channels indices (generators, out, calls)
          = some (generators1, out1, calls ++ indices.map NoiseCall.generateBlock) ∧
        generators1.length = generators.length := by
  intro indices
  induction indices with
  | nil => intro generators out calls _; exact ⟨generators, out, by simp [generateChannels], rfl⟩
  | cons i rest ih =>
    intro generators out calls hin
    have hi : i < generators.length := hin i (List.mem_cons_self _ _)
    obtain ⟨generators1, out1, h1, h2⟩ :=
      ih (generators.set i (ops.generateBlock generators[i] BLOCK_SIZE out i channels).1)
        (ops.generateBlock generators[i] BLOCK_SIZE out i channels).2
        (calls ++ [NoiseCall.generateBlock i])
        (by intro k hk; simp only [List.length_set]; exact hin k (List.mem_cons_of_mem _ hk))
    refine ⟨generators1, out1, ?_, by simpa using h2⟩
    simp only [generateChannels, List.getElem?_eq_getElem hi, h1]
    simp

/-- The channel loop entered at channel `k` with the generators `cur`, which
are the generators `start` after the first `k` channels have generated: it
runs `m` more channels, each generating from its generator of `start`, and
leaves the other generators as they are. -/
theorem generateChannels_state {γ α : Type} (ops : NoiseGeneratorOps γ α)
    (BLOCK_SIZE channels : Nat) (start : List γ) (out : Nat → α) :
    ∀ (m k : Nat) (cur : List γ) (calls : List NoiseCall),
      k + m ≤ start.length →
      cur.length = start.length →
      (∀ i, i < k → cur[i]? = start[i]?.map (fun x =>
        (ops.generateBlock x BLOCK_SIZE
          (outputAfterChannels ops BLOCK_SIZE channels start out i) i channels).1)) →
      (∀ i, k ≤ i → cur[i]? = start[i]?) →
      ∃ generators1,
        generateChannels ops BLOCK_SIZE channels (List.range' k m)
            (cur, outputAfterChannels ops BLOCK_SIZE channels start out k, calls)
          = some (generators1, outputAfterChannels ops BLOCK_SIZE channels start out (k + m),
              calls ++ (List.range' k m).map NoiseCall.generateBlock) ∧
        generators1.length = start.length ∧
        (∀ i, i < k + m → generators1[i]? = start[i]?.map (fun x =>
          (ops.generateBlock x BLOCK_SIZE
            (outputAfterChannels ops BLOCK_SIZE channels start out i) i channels).1)) ∧
        (∀ i, k + m ≤ i → generators1[i]? = start[i]?) := by
  intro m
  induction m with
  | zero =>
    intro k cur calls _ hlen hlow hhigh
    exact ⟨cur, by simp [generateChannels], hlen, hlow, hhigh⟩
  | succ m ih =>
    intro k cur calls hk hlen hlow hhigh
    have hks : k < start.length := by omega
    have hstart : start[k]? = some start[k] := List.getElem?_eq_getElem hks
    have hcur : cur[k]? = some start[k] := by rw [hhigh k (Nat.le_refl k), hstart]
    have hout : outputAfterChannels ops BLOCK_SIZE channels start out (k + 1)
        = (ops.generateBlock start[k] BLOCK_SIZE
            (outputAfterChannels ops BLOCK_SIZE channels start out k) k channels).2 := by
      simp only [outputAfterChannels, hstart]
    obtain ⟨generators1, h1, h2, h3, h4⟩ := ih (k + 1)
      (cur.set k (ops.generateBlock start[k] BLOCK_SIZE
        (outputAfterChannels ops BLOCK_SIZE channels start out k) k channels).1)
      (calls ++ [NoiseCall.generateBlock k]) (by omega) (by simpa using hlen)
      (by
        intro i hi
        by_cases hik : i = k
        · subst hik
          rw [List.getElem?_set_self (by omega), hstart]
          rfl
        · rw [List.getElem?_set_ne (fun e => hik e.symm)]
          exact hlow i (by omega))
      (by
        intro i hi
        rw [List.getElem?_set_ne (by omega)]
        exact hhigh i (by omega))
    refine ⟨generators1, ?_, h2, ?_, ?_⟩
    · rw [List.range'_succ]
      simp only [generateChannels, hcur]
      rw [← hout, h1]
      simp [Nat.add_assoc, Nat.add_comm 1 m]
    · intro i hi
      exact h3 i (by omega)
    · intro i hi
      exact h4 i (by omega)

/-- The channel loop of a whole block, entered with the generators `start`. -/
theorem generateChannels_block {γ α : Type} (ops : NoiseGeneratorOps γ α)
    (BLOCK_SIZE channels : Nat) (start : List γ) (out : Nat → α) (calls : List NoiseCall)
    (hchannels : channels ≤ start.length) :
    ∃ generators1,
      generateChannels ops BLOCK_SIZE channels (List.range channels) (start, out, calls)
        = some (generators1, outputAfterChannels ops BLOCK_SIZE channels start out channels,
            calls ++ (List.range channels).map NoiseCall.generateBlock) ∧
      generators1.length = start.length ∧
      (∀ i, i < channels → generators1[i]? = start[i]?.map (fun x =>
        (ops.generateBlock x BLOCK_SIZE
          (outputAfterChannels ops BLOCK_SIZE channels start out i) i channels).1)) ∧
      (∀ i, channels ≤ i → generators1[i]? = start[i]?) := by
  have h := generateChannels_state ops BLOCK_SIZE channels start out channels 0 start calls
    (by omega) rfl (fun i hi => absurd hi (by omega)) (fun _ _ => rfl)
  simpa [outputAfterChannels, ← List.range_eq_range'] using h

/-- C9. In `ExposedNoiseGenerator::generateBlock` (with a per-channel
generator for each of the `channels` channels): when `acquireNoiseType`
reports a new type `t`, the calls on the per-channel generators are
`setNoiseType(t)` on every generator, in order, and only then the
`generateBlock` of each channel; every channel generates its block from its
generator as `setNoiseType(t)` left it, and the generators beyond the channels
end as `setNoiseType(t)` left them.  When it reports no change, the calls are
the `generateBlock` of each channel and no `setNoiseType` at all; every channel
generates from its generator as it was, and no generator is changed but by its
own `generateBlock`.  The output is the one the channels leave in turn. -/
theorem ExposedNoiseGenerator_generateBlock_noise_type {γ α : Type} (ops : NoiseGeneratorOps γ α)
    (BLOCK_SIZE : Nat) (g : ExposedNoiseGenerator γ) (out : Nat → α)
    (hchannels : g.channels ≤ g.generators.length) :
    ∃ g1 out1 calls,
      ExposedNoiseGenerator.generateBlock ops BLOCK_SIZE g out = some (g1, out1, calls) ∧
      g1.channels = g.channels ∧ g1.noise_type = g.noise_type ∧
      g1.generators.length = g.generators.length ∧
      (g.noise_type_changed = true →
        calls = (List.range g.generators.length).map
            (fun i => NoiseCall.setNoiseType i g.noise_type)
          ++ (List.range g.channels).map NoiseCall.generateBlock ∧
        out1 = outputAfterChannels ops BLOCK_SIZE g.channels
          (g.generators.map (fun x => ops.setNoiseType x g.noise_type)) out g.channels ∧
        (∀ i, i < g.channels → g1.generators[i]? = g.generators[i]?.map (fun x =>
          (ops.generateBlock (ops.setNoiseType x g.noise_type) BLOCK_SIZE
            (outputAfterChannels ops BLOCK_SIZE g.channels
              (g.generators.map (fun x => ops.setNoiseType x g.noise_type)) out i)
            i g.channels).1)) ∧
        (∀ i, g.channels ≤ i →
          g1.generators[i]? = g.generators[i]?.map (fun x => ops.setNoiseType x g.noise_type))) ∧
      (g.noise_type_changed = false →
        calls = (List.range g.channels).map NoiseCall.generateBlock ∧
        out1 = outputAfterChannels ops BLOCK_SIZE g.channels g.generators out g.channels ∧
        (∀ i, i < g.channels → g1.generators[i]? = g.generators[i]?.map (fun x =>
          (ops.generateBlock x BLOCK_SIZE
            (outputAfterChannels ops BLOCK_SIZE g.channels g.generators out i)
            i g.channels).1)) ∧
        (∀ i, g.channels ≤ i → g1.generators[i]? = g.generators[i]?)) := by
  unfold ExposedNoiseGenerator.generateBlock acquireNoiseType
  cases hc : g.noise_type_changed with
  | true =>
    obtain ⟨h1, h2⟩ := setNoiseTypes_spec ops g.noise_type g.generators 0
    obtain ⟨generators1, h3, h4, h5, h6⟩ := generateChannels_block ops BLOCK_SIZE g.channels
      (g.generators.map (fun x => ops.setNoiseType x g.noise_type)) out
      (setNoiseTypes ops g.noise_type 0 g.generators).2
      (by rw [List.length_map]; exact hchannels)
    simp only [if_true, h1, h3]
    refine ⟨_, _, _, rfl, rfl, rfl, by simpa using h4, fun _ => ⟨?_, rfl, ?_, ?_⟩,
      fun h => absurd h (by simp)⟩
    · rw [h2]
      simp only [List.range_eq_range']
    · intro i hi
      show generators1[i]? = _
      rw [h5 i hi, List.getElem?_map, Option.map_map]
      rfl
    · intro i hi
      show generators1[i]? = _
      rw [h6 i hi, List.getElem?_map]
  | false =>
    obtain ⟨generators1, h3, h4, h5, h6⟩ := generateChannels_block ops BLOCK_SIZE g.channels
      g.generators out [] hchannels
    simp only [Bool.false_eq_true, if_false, h3]
    exact ⟨_, _, _, rfl, rfl, rfl, h4, fun h => absurd h (by simp),
      fun _ => ⟨by simp, rfl, h5, h6⟩⟩

/-- Witness for C9: two channels of type `0`, NOISE_TYPE just set to `1`. -/
theorem ExposedNoiseGenerator_generateBlock_noise_type_witness :
    (ExposedNoiseGenerator.generateBlock typeNoise 256 retypedNoise (fun _ => 0)).map
        (fun r => (r.1.generators, (List.range 3).map r.2.1, r.2.2))
      = some ([1, 1], [1, 1, 0],
          [NoiseCall.setNoiseType 0 1, NoiseCall.setNoiseType 1 1, NoiseCall.generateBlock 0,
            NoiseCall.generateBlock 1]) ∧
    ∃ g1 out1 calls,
      ExposedNoiseGenerator.generateBlock typeNoise 256 retypedNoise (fun _ => 0)
        = some (g1, out1, calls) ∧
      g1.channels = retypedNoise.channels ∧ g1.noise_type = retypedNoise.noise_type ∧
      g1.generators.length = retypedNoise.generators.length ∧
      (retypedNoise.noise_type_changed = true →
        calls = (List.range retypedNoise.generators.length).map
            (fun i => NoiseCall.setNoiseType i retypedNoise.noise_type)
          ++ (List.range retypedNoise.channels).map NoiseCall.generateBlock ∧
        out1 = outputAfterChannels typeNoise 256 retypedNoise.channels
          (retypedNoise.generators.map
            (fun x => typeNoise.setNoiseType x retypedNoise.noise_type))
          (fun _ => 0) retypedNoise.channels ∧
        (∀ i, i < retypedNoise.channels →
          g1.generators[i]? = retypedNoise.generators[i]?.map (fun x =>
            (typeNoise.generateBlock (typeNoise.setNoiseType x retypedNoise.noise_type) 256
              (outputAfterChannels typeNoise 256 retypedNoise.channels
                (retypedNoise.generators.map
                  (fun x => typeNoise.setNoiseType x retypedNoise.noise_type))
                (fun _ => 0) i)
              i retypedNoise.channels).1)) ∧
        (∀ i, retypedNoise.channels ≤ i →
          g1.generators[i]? = retypedNoise.generators[i]?.map
            (fun x => typeNoise.setNoiseType x retypedNoise.noise_type))) ∧
      (retypedNoise.noise_type_changed = false →
        calls = (List.range retypedNoise.channels).map NoiseCall.generateBlock ∧
        out1 = outputAfterChannels typeNoise 256 retypedNoise.channels retypedNoise.generators
          (fun _ => 0) retypedNoise.channels ∧
        (∀ i, i < retypedNoise.channels →
          g1.generators[i]? = retypedNoise.generators[i]?.map (fun x =>
            (typeNoise.generateBlock x 256
              (outputAfterChannels typeNoise 256 retypedNoise.channels retypedNoise.generators
                (fun _ => 0) i)
              i retypedNoise.channels).1)) ∧
        (∀ i, retypedNoise.channels ≤ i → g1.generators[i]? = retypedNoise.generators[i]?)) :=
  ⟨by decide,
    ExposedNoiseGenerator_generateBlock_noise_type typeNoise 256 retypedNoise (fun _ => 0)
      (by decide)⟩

/-! ## C10: wrapping more than once -/

/-- C10 (the code at the failing input). With looping on and a seekable
decoder over a one-frame stream, a three-frame slot needs two wraps; the code
wraps once (read, seek, read) and, having got data after the seek, stops and
pads: the slot ends as `7, 7, 0`, its last frame a padding zero. -/
theorem fillBufferFromDecoder_second_wrap_pads :
    (fillBufferFromDecoder (streamDecoder [[7]] 1) 10 0 3 1 (fun _ => (5 : Int)) true 0).map
        (fun r => (r.2.log, (List.range 4).map r.2.dest))
      = some ([DecoderCall.write 3 1 [7], DecoderCall.seek 0, DecoderCall.write 2 1 [7]],
          [7, 7, 0, 5]) := by
  decide

/-! ## C11: seek requests and the seek slot -/

/-- C12 (the code at the failing input). On a newly constructed
`MemoryLookaheadStream`, whatever the wrapped stream, `resetFinal()` does not
complete: `recording` is still `true` when it calls `reset()`, whose assertion
`recording == false` fails; `recording` would be cleared only after. -/
theorem MemoryLookaheadStream_resetFinal_asserts :
    (∀ (ς : Type) (stream : ς),
      (MemoryLookaheadStream.construct stream).resetFinal = none) ∧
    (MemoryLookaheadStream.construct [1, 2, 3]).recording = true ∧
    ((MemoryLookaheadStream.construct [1, 2, 3]).reset).isNone = true :=
  ⟨fun _ _ => rfl, rfl, rfl⟩

/-! ## C13: bounds in the channel-conversion path -/

/-- The channel-conversion path of `OggDecoder::writeSamplesInterleaved`: `num`
goes to the library call as it is, `tmp_buf` takes whatever the call stores,
and the zero-fill covers `got * info.channels` samples. -/
theorem OggDecoder_writeSamplesInterleaved_conversion {V α : Type} [Zero α]
    (get_samples : V → Int → Int → Nat × List α × V)
    (mixChannels : Nat → List α → Int → (Nat → α) → Int → Nat → α)
    (d : OggDecoder V) (num : Int) (samples : Nat → α) (channels : Int)
    (h1 : 1 ≤ channels) (h2 : channels ≠ d.channels) :
    (OggDecoder.writeSamplesInterleaved get_samples mixChannels d num samples channels).got
      = (get_samples d.vorbis d.channels num).1 ∧
    (OggDecoder.writeSamplesInterleaved get_samples mixChannels d num samples
        channels).tmp_buf_stored
      = (get_samples d.vorbis d.channels num).2.1.length ∧
    (OggDecoder.writeSamplesInterleaved get_samples mixChannels d num samples channels).zeroed
      = (((get_samples d.vorbis d.channels num).1 : Int) * d.channels).toNat := by
  have hc : ¬ channels < 1 := by omega
  unfold OggDecoder.writeSamplesInterleaved
  simp only [hc, if_false, h2]
  simp

/-- The library call on the vorbis file stores `channels` floats per frame. -/
theorem vorbisSamples_stored (left : Nat) (channels num : Int) :
    (vorbisSamples left channels num).2.1.length
      = (vorbisSamples left channels num).1 * channels.toNat := by
  simp [vorbisSamples]

/-- C13 (the code at the failing input). On a stereo file, a mono read of
`num = 4096` decodes 2048 frames, 4096 floats, into `tmp_buf`, which holds
`TMP_BUF_FRAMES * 2 = 2048` floats; and the zero-fill covers
`got * info.channels = 4096` samples of the output, not the
`got * actualChannels = 2048`.  On a mono file, a stereo read of 4 frames
zero-fills 4 of the 8 samples of the output. -/
theorem OggDecoder_writeSamplesInterleaved_out_of_bounds :
    (OggDecoder.writeSamplesInterleaved vorbisSamples idleMixChannels stereoOgg 4096
        (fun _ => 5) 1).got = 2048 ∧
    (OggDecoder.writeSamplesInterleaved vorbisSamples idleMixChannels stereoOgg 4096
        (fun _ => 5) 1).tmp_buf_stored = 4096 ∧
    TMP_BUF_FRAMES * stereoOgg.channels.toNat = 2048 ∧
    (OggDecoder.writeSamplesInterleaved vorbisSamples idleMixChannels stereoOgg 4096
        (fun _ => 5) 1).zeroed = 4096 ∧
    (OggDecoder.writeSamplesInterleaved vorbisSamples idleMixChannels monoOgg 4
        (fun _ => 5) 2).got = 4 ∧
    (OggDecoder.writeSamplesInterleaved vorbisSamples idleMixChannels monoOgg 4
        (fun _ => 5) 2).zeroed = 4 ∧
    (List.range 9).map (OggDecoder.writeSamplesInterleaved vorbisSamples idleMixChannels monoOgg 4
        (fun _ => 5) 2).samples = [0, 0, 0, 0, 5, 5, 5, 5, 5] := by
  obtain ⟨h1, h2, h3⟩ := OggDecoder_writeSamplesInterleaved_conversion vorbisSamples
    idleMixChannels stereoOgg 4096 (fun _ => 5) 1 (by decide) (by decide)
  have hgot : (vorbisSamples stereoOgg.vorbis stereoOgg.channels 4096).1 = 2048 := by decide
  refine ⟨?_, ?_, by decide, ?_, by decide, by decide, by decide⟩
  · rw [h1, hgot]
  · rw [h2, vorbisSamples_stored, hgot]; decide
  · rw [h3, hgot]; decide

/-! ## C14: `parseOptions` inverts the encoding -/

/-- A line without the delimiter, followed by the delimiter, is read whole and
the rest is left. -/
theorem getline_append (delim : Char) (line rest : List Char) (h : delim ∉ line) :
    getline delim (line ++ delim :: rest) = some (line, rest) := by
  induction line with
  | nil => simp [getline]
  | cons c cs ih =>
    have hc : c ≠ delim := fun e => h (by simp [e])
    have hcs : delim ∉ cs := fun e => h (List.mem_cons_of_mem _ e)
    simp [getline, hc, ih hcs]

/-- A line without the delimiter that ends the stream is read whole, unless it
is empty. -/
theorem getline_end (delim : Char) (line : List Char) (h : delim ∉ line) (hne : line ≠ []) :
    getline delim line = some (line, []) := by
  induction line with
  | nil => exact absurd rfl hne
  | cons c cs ih =>
    have hc : c ≠ delim := fun e => h (by simp [e])
    have hcs : delim ∉ cs := fun e => h (List.mem_cons_of_mem _ e)
    cases cs with
    | nil => simp [getline, hc]
    | cons d ds => rw [getline, if_neg hc, ih hcs (by simp)]

/-- At the end of the stream the loop of `parseOptions` is over. -/
theorem parseOptionsLoop_nil (fuel : Nat) (parsed : List (List Char × List Char)) :
    parseOptionsLoop fuel [] parsed = parsed := by
  cases fuel <;> simp [parseOptionsLoop, getline]

/-- A value without white space is read as it is. -/
theorem filter_isspace (v : List Char) (h : ∀ c ∈ v, isspace c = false) :
    v.filter (fun c => !isspace c) = v := by
  rw [List.filter_eq_self]
  intro c hc
  simp [h c hc]

/-- One iteration of the loop of `parseOptions` on a segment `k=v`. -/
theorem parseOptionsLoop_pair (fuel : Nat) (k v rest : List Char)
    (parsed : List (List Char × List Char))
    (hk : k ≠ []) (hk1 : '&' ∉ k) (hk2 : '=' ∉ k) (hv1 : '&' ∉ v)
    (hv2 : ∀ c ∈ v, isspace c = false) :
    parseOptionsLoop (fuel + 1) (k ++ '=' :: v ++ '&' :: rest) parsed
      = parseOptionsLoop fuel rest (parsed ++ [(k, v)]) := by
  have hseg : '&' ∉ k ++ '=' :: v := by
    simp only [List.mem_append, List.mem_cons, not_or]
    exact ⟨hk1, by decide, hv1⟩
  have h1 : getline '&' (k ++ '=' :: v ++ '&' :: rest) = some (k ++ '=' :: v, rest) := by
    have := getline_append '&' (k ++ '=' :: v) rest hseg
    simpa using this
  have h2 : getline '=' (k ++ '=' :: v) = some (k, v) := getline_append '=' k v hk2
  have hlen : k.length ≠ 0 := by simpa using hk
  rw [parseOptionsLoop, h1]
  simp only [h2, hlen, if_false, filter_isspace v hv2]

/-- The last iteration of the loop of `parseOptions` on a segment `k=v` that
ends the string. -/
theorem parseOptionsLoop_last (fuel : Nat) (k v : List Char)
    (parsed : List (List Char × List Char))
    (hk : k ≠ []) (hk1 : '&' ∉ k) (hk2 : '=' ∉ k) (hv1 : '&' ∉ v)
    (hv2 : ∀ c ∈ v, isspace c = false) :
    parseOptionsLoop (fuel + 1) (k ++ '=' :: v) parsed = parsed ++ [(k, v)] := by
  have hseg : '&' ∉ k ++ '=' :: v := by
    simp only [List.mem_append, List.mem_cons, not_or]
    exact ⟨hk1, by decide, hv1⟩
  have h1 : getline '&' (k ++ '=' :: v) = some (k ++ '=' :: v, []) :=
    getline_end '&' _ hseg (by simp)
  have h2 : getline '=' (k ++ '=' :: v) = some (k, v) := getline_append '=' k v hk2
  have hlen : k.length ≠ 0 := by simpa using hk
  rw [parseOptionsLoop, h1]
  simp only [h2, hlen, if_false, filter_isspace v hv2, parseOptionsLoop_nil]

/-- One iteration of the loop of `parseOptions` on a segment with an empty
key: nothing is added. -/
theorem parseOptionsLoop_empty_key (fuel : Nat) (x rest : List Char)
    (parsed : List (List Char × List Char)) (hx : '&' ∉ x)
    (hkey : x = [] ∨ ∃ y, x = '=' :: y) :
    parseOptionsLoop (fuel + 1) (x ++ '&' :: rest) parsed = parseOptionsLoop fuel rest parsed := by
  rw [parseOptionsLoop, getline_append '&' x rest hx]
  rcases hkey with h | ⟨y, h⟩
  · subst h; simp [getline]
  · subst h; simp [getline]

/-- The loop of `parseOptions` on an encoded list adds the list, given fuel
for every character. -/
theorem parseOptionsLoop_encodeOptions (pairs : List (List Char × List Char))
    (h : ∀ p ∈ pairs, p.1 ≠ [] ∧ '&' ∉ p.1 ∧ '=' ∉ p.1 ∧ '&' ∉ p.2 ∧
      ∀ c ∈ p.2, isspace c = false) :
    ∀ (fuel : Nat) (parsed : List (List Char × List Char)),
      (encodeOptions pairs).length < fuel →
      parseOptionsLoop fuel (encodeOptions pairs) parsed = parsed ++ pairs := by
  induction pairs with
  | nil => intro fuel parsed _; simp [encodeOptions, parseOptionsLoop_nil]
  | cons p rest ih =>
    obtain ⟨k, v⟩ := p
    obtain ⟨hk, hk1, hk2, hv1, hv2⟩ := h (k, v) (List.mem_cons_self _ _)
    intro fuel parsed hfuel
    cases fuel with
    | zero => exact absurd hfuel (by omega)
    | succ n =>
      cases rest with
      | nil => simpa [encodeOptions] using parseOptionsLoop_last n k v parsed hk hk1 hk2 hv1 hv2
      | cons q rest1 =>
        have hrest := ih (fun p hp => h p (List.mem_cons_of_mem _ hp))
        have henc : encodeOptions ((k, v) :: q :: rest1)
            = k ++ '=' :: v ++ '&' :: encodeOptions (q :: rest1) := by
          simp [encodeOptions]
        rw [henc] at hfuel ⊢
        rw [parseOptionsLoop_pair n k v _ parsed hk hk1 hk2 hv1 hv2,
          hrest n _ (by simp at hfuel; omega)]
        simp

/-- The loop of `parseOptions` never adds a pair with an empty key. -/
theorem parseOptionsLoop_keys :
    ∀ (fuel : Nat) (opts_stream : List Char) (parsed : List (List Char × List Char)),
      (∀ p ∈ parsed, p.1 ≠ []) →
      ∀ p ∈ parseOptionsLoop fuel opts_stream parsed, p.1 ≠ [] := by
  intro fuel
  induction fuel with
  | zero => intro _ parsed h; simpa [parseOptionsLoop] using h
  | succ n ih =>
    intro opts_stream parsed h
    rw [parseOptionsLoop]
    split
    · exact h
    · rename_i current_opt rest _
      simp only
      split
      · exact ih rest parsed h
      · rename_i hlen
        apply ih
        intro p hp
        simp only [List.mem_append, List.mem_singleton] at hp
        rcases hp with hp | hp
        · exact h p hp
        · subst hp
          intro h0
          exact hlen (by simp only at h0; simp [h0])

/-- C14. `parseOptions` inverts the option encoding: for every list of pairs
whose keys are non-empty and contain neither `&` nor `=` and whose values
contain neither `&` nor white space, parsing `k_1=v_1&k_2=v_2&...` returns
that list, in the same order.  Segments with an empty key are dropped: one
put in front of the encoding changes nothing, and no string at all parses to
a pair with an empty key. -/
theorem parseOptions_encodeOptions (pairs : List (List Char × List Char))
    (h : ∀ p ∈ pairs, p.1 ≠ [] ∧ '&' ∉ p.1 ∧ '=' ∉ p.1 ∧ '&' ∉ p.2 ∧
      ∀ c ∈ p.2, isspace c = false) :
    parseOptions (encodeOptions pairs) = pairs ∧
    (∀ x, '&' ∉ x → (x = [] ∨ ∃ y, x = '=' :: y) →
      parseOptions (x ++ '&' :: encodeOptions pairs) = pairs) ∧
    (∀ options, ∀ p ∈ parseOptions options, p.1 ≠ []) := by
  refine ⟨?_, ?_, ?_⟩
  · unfold parseOptions
    rw [parseOptionsLoop_encodeOptions pairs h _ [] (by omega)]
    simp
  · intro x hx hkey
    unfold parseOptions
    rw [parseOptionsLoop_empty_key _ x _ [] hx hkey,
      parseOptionsLoop_encodeOptions pairs h _ [] (by simp; omega)]
    simp
  · intro options
    exact parseOptionsLoop_keys _ options [] (by simp)

/-- Witness for C14: the pairs `a=1`, `b=2`; and a string with two empty-key
segments, a key with a space and a value with an `=`. -/
theorem parseOptions_encodeOptions_witness :
    parseOptions "a=1&=x&&key two=v=w&e=".toList
      = [("a".toList, "1".toList), ("key two".toList, "v=w".toList), ("e".toList, [])] ∧
    (parseOptions (encodeOptions [("a".toList, "1".toList), ("b".toList, "2".toList)])
        = [("a".toList, "1".toList), ("b".toList, "2".toList)] ∧
      (∀ x, '&' ∉ x → (x = [] ∨ ∃ y, x = '=' :: y) →
        parseOptions (x ++ '&' :: encodeOptions [("a".toList, "1".toList), ("b".toList, "2".toList)])
          = [("a".toList, "1".toList), ("b".toList, "2".toList)]) ∧
      (∀ options, ∀ p ∈ parseOptions options, p.1 ≠ [])) :=
  ⟨by decide,
    parseOptions_encodeOptions [("a".toList, "1".toList), ("b".toList, "2".toList)] (by decide)⟩

/-! ## C15: `byteStreamToBuffer` concatenates the chunks -/

/-- A block that took `got` bytes, at most its size, and was resized to `got`
is those bytes. -/
theorem resize_block (data : List Nat) (got : Nat) (hlen : data.length = got)
    (hgot : got ≤ byteStreamToBuffer.BLOCK_SIZE) :
    resize (data.take byteStreamToBuffer.BLOCK_SIZE
      ++ (List.replicate byteStreamToBuffer.BLOCK_SIZE 0).drop data.length) got = data := by
  subst hlen
  unfold resize
  rw [List.take_of_length_le hgot, List.take_left' rfl]
  simp

/-- Copying the blocks one after the other is copying their concatenation. -/
theorem copyBlocks_flatten (blocks : List (List Nat)) :
    ∀ (cur : Nat) (buffer : Nat → Nat),
      byteStreamToBuffer.copyBlocks blocks cur buffer = writeAt buffer cur blocks.flatten := by
  induction blocks with
  | nil => intro cur buffer; simp [byteStreamToBuffer.copyBlocks, writeAt_nil]
  | cons b rest ih =>
    intro cur buffer
    rw [byteStreamToBuffer.copyBlocks, ih, writeAt_writeAt]
    simp

/-- The loop of `byteStreamToBuffer` entered before read number `j`, the first
empty read being number `n`: it exits after that read, having appended the
chunks of the reads `j` to `n - 1` and an empty block. -/
theorem readBlocks_chunks {ς : Type} (stream : ByteStream ς) (s : ς) (n : Nat)
    (hread : ∀ k, gotOfRead stream s k ≤ byteStreamToBuffer.BLOCK_SIZE ∧
      (chunkOfRead stream s k).length = gotOfRead stream s k)
    (hmore : ∀ k, k < n → gotOfRead stream s k ≠ 0)
    (hend : gotOfRead stream s n = 0) :
    ∀ (fuel j : Nat) (blocks : List (List Nat)) (total_size : Nat),
      j ≤ n → n - j < fuel →
      byteStreamToBuffer.readBlocks stream fuel (streamAfter stream s j) blocks total_size
        = some (blocks ++ (List.range' j (n - j)).map (chunkOfRead stream s) ++ [[]],
            total_size + ((List.range' j (n - j)).map (gotOfRead stream s)).sum,
            streamAfter stream s (n + 1)) := by
  intro fuel
  induction fuel with
  | zero => intro j blocks total_size _ h; exact absurd h (by omega)
  | succ f ih =>
    intro j blocks total_size hj hfuel
    obtain ⟨hle, hlen⟩ := hread j
    have hmorej := hmore j
    rcases hr : stream.read (streamAfter stream s j) byteStreamToBuffer.BLOCK_SIZE with
      ⟨got, data, s1⟩
    have hgot : gotOfRead stream s j = got := by simp [gotOfRead, hr]
    have hchunk : chunkOfRead stream s j = data := by simp [chunkOfRead, hr]
    have hnext : streamAfter stream s (j + 1) = s1 := by simp [streamAfter, hr]
    rw [hgot] at hle hmorej
    rw [hchunk, hgot] at hlen
    rw [byteStreamToBuffer.readBlocks, hr]
    simp only [resize_block data got hlen hle]
    by_cases hjn : j = n
    · subst hjn
      have h0 : got = 0 := by rw [← hgot]; exact hend
      subst h0
      have hnil : data = [] := List.eq_nil_of_length_eq_zero hlen
      simp [hnil, hnext]
    · have hlt : j < n := by omega
      have h0 : got ≠ 0 := hmorej hlt
      simp only [h0, ne_eq, not_false_eq_true, if_true]
      rw [← hnext, ih (j + 1) _ _ (by omega) (by omega)]
      have hsplit : n - j = (n - (j + 1)) + 1 := by omega
      rw [hsplit, List.range'_succ]
      simp [hgot, hchunk, Nat.add_assoc]

/-- The chunks of a stream whose reads store as many bytes as they return
have, together, the summed length. -/
theorem chunks_length {ς : Type} (stream : ByteStream ς) (s : ς)
    (hread : ∀ k, gotOfRead stream s k ≤ byteStreamToBuffer.BLOCK_SIZE ∧
      (chunkOfRead stream s k).length = gotOfRead stream s k) (l : List Nat) :
    (l.map (chunkOfRead stream s)).flatten.length = (l.map (gotOfRead stream s)).sum := by
  induction l with
  | nil => rfl
  | cons k rest ih => simp [ih, (hread k).2]

/-- C15. For a stream whose reads of 8192 bytes return at most 8192 bytes
(storing as many as they return) and whose first empty read is read number
`n`: `byteStreamToBuffer` returns, the array it allocates has the summed size
of the chunks of the reads `0` to `n - 1`, and its contents are those chunks
concatenated in order. -/
theorem byteStreamToBuffer_concatenates {ς : Type} (stream : ByteStream ς) (s : ς)
    (fresh : Nat → Nat) (n fuel : Nat)
    (hread : ∀ k, gotOfRead stream s k ≤ byteStreamToBuffer.BLOCK_SIZE ∧
      (chunkOfRead stream s k).length = gotOfRead stream s k)
    (hmore : ∀ k, k < n → gotOfRead stream s k ≠ 0)
    (hend : gotOfRead stream s n = 0)
    (hfuel : n < fuel) :
    ∃ buffer,
      byteStreamToBuffer stream fuel s fresh
        = some (((List.range n).map (gotOfRead stream s)).sum, buffer,
            streamAfter stream s (n + 1)) ∧
      ((List.range n).map (chunkOfRead stream s)).flatten.length
        = ((List.range n).map (gotOfRead stream s)).sum ∧
      ∀ i, i < ((List.range n).map (gotOfRead stream s)).sum →
        buffer i = ((List.range n).map (chunkOfRead stream s)).flatten.getD i 0 := by
  have hloop := readBlocks_chunks stream s n hread hmore hend fuel 0 [] 0 (Nat.zero_le _)
    (by omega)
  have hs : streamAfter stream s 0 = s := rfl
  rw [hs] at hloop
  simp only [Nat.sub_zero, List.nil_append, Nat.zero_add, ← List.range_eq_range'] at hloop
  have hlen := chunks_length stream s hread (List.range n)
  refine ⟨_, by unfold byteStreamToBuffer; rw [hloop], hlen, ?_⟩
  intro i hi
  rw [copyBlocks_flatten]
  have hi1 : i < ((List.range n).map (chunkOfRead stream s)).flatten.length := by
    rw [hlen]; exact hi
  simp [writeAt, List.getD_eq_getElem?_getD, List.getElem?_eq_getElem hi1]

/-- The list stream returns at most the bytes requested and stores as many
as it returns. -/
theorem listStream_read (s : List Nat) (k : Nat) :
    gotOfRead listStream s k ≤ byteStreamToBuffer.BLOCK_SIZE ∧
      (chunkOfRead listStream s k).length = gotOfRead listStream s k := by
  simp [gotOfRead, chunkOfRead, listStream, List.length_take]

/-- Witness for C15: a stream of the three bytes `1, 2, 3`; the second read
is empty. -/
theorem byteStreamToBuffer_concatenates_witness :
    ((List.range 1).map (chunkOfRead listStream [1, 2, 3])).flatten = [1, 2, 3] ∧
    ∃ buffer,
      byteStreamToBuffer listStream 5 [1, 2, 3] (fun _ => 9)
        = some (((List.range 1).map (gotOfRead listStream [1, 2, 3])).sum, buffer,
            streamAfter listStream [1, 2, 3] (1 + 1)) ∧
      ((List.range 1).map (chunkOfRead listStream [1, 2, 3])).flatten.length
        = ((List.range 1).map (gotOfRead listStream [1, 2, 3])).sum ∧
      ∀ i, i < ((List.range 1).map (gotOfRead listStream [1, 2, 3])).sum →
        buffer i = ((List.range 1).map (chunkOfRead listStream [1, 2, 3])).flatten.getD i 0 :=
  ⟨by decide,
    byteStreamToBuffer_concatenates listStream [1, 2, 3] (fun _ => 9) 1 5
      (listStream_read [1, 2, 3]) (by decide) (by decide) (by decide)⟩

end Synthizer
